import Mathlib

/-!
Verification development for the StrataScribe roster-to-stratagem engine.

This file gives a shallow embedding, in Lean 4, of the stratagem-eligibility
and result-organisation core of the repository:

* `sublib/battle_parse.py` (faction/detachment/unit resolution, the validity
  predicate `_stratagem_is_valid`, the per-force stratagem organisation
  `_prepare_stratagems_phase` / `_prepare_stratagems_units`, the pipeline
  `parse_battlescribe`),
* `sublib/stratagems/stratagem_filters.py` (core-stratagem filters),
* `sublib/faction_utils.py` (subfaction extraction and name matching),
* `app/services/roster_service.py` (the core-stratagem section of
  `_filter_relevant_stratagems`),
* the constant tables of `app/config/game_constants.py`, which mirror the
  `wh40k_lists` module that `battle_parse.py` imports (that module itself is
  not in the source tree; its list constants are taken from
  `game_constants.py`, and its two pieces of mutable state - the phase-ignore
  list and the current army-of-renown - are modelled as explicit state).

Python strings are modelled as Lean `String`s. Because the Lean core string
library is not kernel-reducible, the Python string operations used by the
source (`in`, `split`, `strip`, `lower`, `replace`, slicing) are re-implemented
below as structurally recursive functions on `List Char`. `lower` is modelled
for ASCII letters, which covers every string the source manipulates with it.
Python `dict`s built from (possibly duplicated) keys are modelled as
association lists with last-entry-wins lookup, matching dict construction
order. Python exceptions (`KeyError`, `ValueError`) are modelled with
`Except String`.
-/

/-! ## String primitives (Python string semantics) -/

/-- ASCII lowering of one character (Python `str.lower` on the ASCII range). -/
def lowerChar (c : Char) : Char :=
  if 65 ≤ c.toNat ∧ c.toNat ≤ 90 then Char.ofNat (c.toNat + 32) else c

/-- Python `s.lower()` (ASCII). -/
def pyLower (s : String) : String := ⟨s.data.map lowerChar⟩

/-- Test whether the first list is a leading segment of the second. -/
def isPre : List Char → List Char → Bool
  | [], _ => true
  | _ :: _, [] => false
  | p :: ps, c :: cs => p = c && isPre ps cs

/-- Test whether `needle` occurs contiguously inside the list. -/
def containsChars (needle : List Char) : List Char → Bool
  | [] => needle.isEmpty
  | c :: cs => isPre needle (c :: cs) || containsChars needle cs

/-- Python `needle in hay` (substring containment). -/
def strContains (hay needle : String) : Bool := containsChars needle.data hay.data

/-- Worker for `pySplit`: the `Nat` argument skips the remaining characters of
a separator that has just been matched. -/
def splitAux (sep : List Char) : List Char → Nat → List Char → List (List Char)
  | [], _, acc => [acc]
  | c :: cs, 0, acc =>
    if sep.length > 0 && isPre sep (c :: cs) then acc :: splitAux sep cs (sep.length - 1) []
    else splitAux sep cs 0 (acc ++ [c])
  | _ :: cs, Nat.succ k, acc => splitAux sep cs k acc

/-- Python `s.split(sep)` for a non-empty separator. -/
def pySplit (s sep : String) : List String :=
  (splitAux sep.data s.data 0 []).map (fun l => ⟨l⟩)

/-- Whitespace recognised by Python `str.strip()` (the kinds appearing in the
data handled by the source). -/
def isSpaceChar (c : Char) : Bool := c = ' ' || c = '\t' || c = '\n' || c = '\r'

/-- Python `s.strip()`. -/
def pyStrip (s : String) : String :=
  ⟨((s.data.dropWhile isSpaceChar).reverse.dropWhile isSpaceChar).reverse⟩

/-- Worker for `pyReplace`: the `Nat` argument skips the remaining characters
of a pattern that has just been matched. -/
def replAux (pat rep : List Char) : List Char → Nat → List Char
  | [], _ => []
  | c :: cs, 0 =>
    if pat.length > 0 && isPre pat (c :: cs) then rep ++ replAux pat rep cs (pat.length - 1)
    else c :: replAux pat rep cs 0
  | _ :: cs, Nat.succ k => replAux pat rep cs k

/-- Python `s.replace(pat, rep)` for a non-empty pattern. -/
def pyReplace (s pat rep : String) : String := ⟨replAux pat.data rep.data s.data 0⟩

/-- Python `s[n:]` (character-based slicing). -/
def pyDrop (s : String) (n : Nat) : String := ⟨s.data.drop n⟩

/-- Decimal digit character. -/
def digitChar (d : Nat) : Char := Char.ofNat (48 + d)

/-- Fuel-driven decimal rendering (the fuel in `natToStr` always suffices). -/
def natToCharsAux : Nat → Nat → List Char
  | 0, _ => []
  | Nat.succ fuel, n =>
    if n < 10 then [digitChar n] else natToCharsAux fuel (n / 10) ++ [digitChar (n % 10)]

/-- Python `str(n)` for a natural number. -/
def natToStr (n : Nat) : String := ⟨natToCharsAux (n + 1) n⟩

/-- Worker for `getFirstLetters`: split into maximal non-whitespace words. -/
def wordsAux : List Char → List Char → List (List Char)
  | [], acc => if acc.isEmpty then [] else [acc]
  | c :: cs, acc =>
    if isSpaceChar c then (if acc.isEmpty then wordsAux cs [] else acc :: wordsAux cs [])
    else wordsAux cs (acc ++ [c])

/-- Embeds `get_first_letters` (`legacy/sublib/stratagems/stratagem_utils.py`):
first character of each whitespace-separated word, joined. -/
def getFirstLetters (line : String) : String :=
  ⟨(wordsAux line.data []).foldl (fun acc w => acc ++ w.take 1) []⟩

/-- First index of an element in a list (Python `list.index`, which the
source only calls on present elements; absent elements map to the length). -/
def listPos {α : Type} [DecidableEq α] : List α → α → Nat
  | [], _ => 0
  | y :: ys, x => if y = x then 0 else listPos ys x + 1

/-- First index of a string in a list, or `none` (models Python
`list.index` raising `ValueError` when absent). -/
def firstIdxOf : List String → String → Option Nat
  | [], _ => none
  | x :: xs, p => if x = p then some 0 else (firstIdxOf xs p).map (· + 1)

/-- Last-entry-wins lookup in an association list, the semantics of a Python
`dict` literal/comprehension built in list order. -/
def dictGet? (dict : List (String × String)) (key : String) : Option String :=
  ((dict.filter (fun kv => decide (kv.1 = key))).getLast?).map (·.2)

/-! ## Constant tables

These are the list/dict constants of `app/config/game_constants.py`, which
mirror the `wh40k_lists` module used by `sublib/battle_parse.py`. -/

/-- Embeds `SUBFACTION_TYPES` (`app/config/game_constants.py`). -/
def SUBFACTION_TYPES : List String :=
  ["Order Convictions", "Forge World Choice", "Brotherhood", "Noble Household",
   "Chapter", "Chaos Allegiance", "Dread Household", "Legion", "Plague Company",
   "Cult of the Legion", "Craftworld Selection", "Kabal", "Wych Cult",
   "Haemonculus Coven", "Cult Creed", "League", "Dynasty Choice", "Clan Kultur",
   "Sept Choice", "Hive Fleet"]

/-- Embeds `SELECTION_NON_UNIT_TYPES` (`app/config/game_constants.py`). -/
def SELECTION_NON_UNIT_TYPES : List String :=
  ["**Chapter Selector**", "Game Type", "Detachment Command Cost", "Battle Size",
   "Arks of Omen Compulsory Type"]

/-- Embeds `GAME_PHASES` (`app/config/game_constants.py`), the canonical phase
vocabulary and its game order (`wh40k_lists.phases_list`). -/
def GAME_PHASES : List String :=
  ["Any time", "Before battle", "During deployment", "At the start of battle round",
   "Any phase", "Any of your phases", "At the start of your turn",
   "At the start of enemy turn", "Start of any phase", "Command phase",
   "Start of the Command phase", "End of the Command phase", "Enemy Command phase",
   "Movement phase", "Enemy Movement phase", "Psychic phase", "Enemy Psychic phase",
   "Shooting phase", "Enemy Shooting phase", "Shooting or Fight phase",
   "Being targeted", "Charge phase", "Start of the Charge phase",
   "Enemy Charge phase", "Fight phase", "Start of the Fight phase",
   "Enemy Fight phase", "Morale phase", "Enemy Morale phase", "Taking casualties",
   "Enemy taking casualties", "End of your turn", "End of enemy turn",
   "End of the turn", "End of the phase", "End of the battle round",
   "End of the Battle", "After enemy unit ends Normal, Advance or Fall Back move",
   "End of any phase"]

/-- Embeds `VALID_STRATAGEM_TYPES` (`app/config/game_constants.py`). -/
def VALID_STRATAGEM_TYPES : List String :=
  ["Battle Tactic Stratagem", "Strategic Ploy Stratagem", "Epic Deed Stratagem",
   "Requisition Stratagem", "Wargear Stratagem", "Core Stratagem"]

/-- Embeds `INVALID_STRATAGEM_TYPES` (`app/config/game_constants.py`); the same
literal list appears in `roster_service._filter_relevant_stratagems`. -/
def INVALID_STRATAGEM_TYPES : List String :=
  ["(Supplement)", "Crusher Stampede", "Crusade", "Fallen Angels", "Boarding Actions"]

/-- Embeds `ARMY_OF_RENOWN_LIST` (`app/config/game_constants.py`). -/
def ARMY_OF_RENOWN_LIST : List String :=
  ["Kill Team Strike Force", "Vanguard Spearhead", "Mechanicus Defence Cohort",
   "Skitarii Veteran Cohort", "Freeblade Lance", "Disciples of Belakor",
   "Terminus Est Assault Force", "Warpmeld Pact", "Coteries of the Haemonculi",
   "Cult of the Cryptek", "Annihilation Legion", "Speed Freeks Speed Mob",
   "Cogs of Vashtorr"]

/-- Embeds `UNIT_RENAME_MAPPINGS` (`app/config/game_constants.py`), the
BattleScribe-to-Wahapedia unit rename dict (`wh40k_lists.unit_rename_dict`). -/
def UNIT_RENAME_MAPPINGS : List (String × String) :=
  [("War Dog Brigand Squadron", "War Dog Brigand"),
   ("War Dog Executioner Squadron", "War Dog Executioner"),
   ("War Dog Huntsman Squadron", "War Dog Huntsman"),
   ("War Dog Karnivore Squadron", "War Dog Karnivore"),
   ("War Dog Stalker Squadron", "War Dog Stalker"),
   ("Armiger Helverins", "Armiger Helverin"),
   ("Armiger Warglaives", "Armiger Warglaive"),
   ("Knight Moiraxes", "Knight Moirax"),
   ("Kâhl", "Khl"),
   ("KÃ¢hl", "Khl"),
   ("Brôkhyr Thunderkyn w/ bolt cannons", "Brkhyr Thunderkyn"),
   ("Brôkhyr Thunderkyn w/ graviton blast cannons", "Brkhyr Thunderkyn"),
   ("Brôkhyr Thunderkyn  w/ SP conversion beamers", "Brkhyr Thunderkyn"),
   ("BrÃ´khyr Thunderkyn w/ bolt cannons", "Brkhyr Thunderkyn"),
   ("BrÃ´khyr Thunderkyn w/ graviton blast cannons", "Brkhyr Thunderkyn"),
   ("BrÃ´khyr Thunderkyn  w/ SP conversion beamers", "Brkhyr Thunderkyn"),
   ("Hearthguard w/ disintegrators and plasma blade gauntlets", "Einhyr Hearthguard"),
   ("Hearthguard w/ disintegrators and concussion gauntlets", "Einhyr Hearthguard"),
   ("Hearthguard w/ plasma guns and concussion gauntlets", "Einhyr Hearthguard"),
   ("Hearthguard w/ plasma guns and plasma blade gauntlets", "Einhyr Hearthguard"),
   ("Cthonian Beserks w/ heavy plasma axes", "Cthonian Beserks"),
   ("Cthonian Beserks w/ concussion mauls", "Cthonian Beserks"),
   ("Hearthkyn Warriors w/ ion blasters", "Hearthkyn Warriors"),
   ("Hearthkyn Warriors w/ bolters", "Hearthkyn Warriors"),
   ("Ûthar the Destined", "thar the Destined"),
   ("Ã›thar the Destined", "thar the Destined"),
   ("Brôkhyr Iron-master", "Brkhyr Iron-master"),
   ("BrÃ´khyr Iron-master", "Brkhyr Iron-master"),
   ("Chapter Master", "Captain"),
   ("Chapter Master in Phobos Armour", "Captain in Phobos Armour"),
   ("Chapter Master in Terminator Armour", "Captain in Terminator Armour"),
   ("Chapter Master on Bike", "Captain on Bike"),
   ("Chapter Master with Master-crafted Heavy Bolt Rifle",
    "Captain with Master-crafted Heavy Bolt Rifle"),
   ("Primaris Chapter Master", "Primaris Captain"),
   ("Chapter Master in Gravis Armour", "Captain in Gravis Armour")]

/-- Embeds `SUBFACTION_RENAME_MAPPINGS` (`app/config/game_constants.py`), the
subfaction-to-faction rename dict (`wh40k_lists.subfaction_rename_dict`). -/
def SUBFACTION_RENAME_MAPPINGS : List (String × String) :=
  [("Order: Our Martyred Lady", "Order of Our Martyred Lady"),
   ("Order: Argent Shroud", "Order of the Argent Shroud"),
   ("Order: Bloody Rose", "Order of the Bloody Rose"),
   ("Order: Ebon Chalice", "Order of the Ebon Chalice"),
   ("Order: Sacred Rose", "Order of the Sacred Rose"),
   ("Order: Valorous Heart", "Order of the Valorous Heart"),
   ("Death Korps of Krieg", "Astra Militarum"),
   ("Catachan", "Astra Militarum"),
   ("Cadian", "Astra Militarum"),
   ("Tallarn", "Astra Militarum"),
   ("Vostroyan", "Astra Militarum"),
   ("Mordian", "Astra Militarum"),
   ("Armageddon", "Astra Militarum"),
   ("Dark Angels", "Space Marines"),
   ("Blood Angels", "Space Marines"),
   ("Space Wolves", "Space Marines"),
   ("Ultramarines", "Space Marines"),
   ("Salamanders", "Space Marines"),
   ("Raven Guard", "Space Marines"),
   ("White Scars", "Space Marines"),
   ("Iron Hands", "Space Marines"),
   ("Imperial Fists", "Space Marines"),
   ("Black Templars", "Space Marines"),
   ("Crimson Fists", "Space Marines"),
   ("Deathwatch", "Space Marines"),
   ("Alpha Legion", "Chaos Space Marines"),
   ("Black Legion", "Chaos Space Marines"),
   ("Iron Warriors", "Chaos Space Marines"),
   ("Night Lords", "Chaos Space Marines"),
   ("Word Bearers", "Chaos Space Marines"),
   ("Red Corsairs", "Chaos Space Marines"),
   ("World Eaters", "World Eaters"),
   ("Emperor\x27s Children", "Emperors Children"),
   ("Death Guard", "Death Guard"),
   ("Thousand Sons", "Thousand Sons"),
   ("Genestealer Cults", "Genestealer Cults"),
   ("Adeptus Mechanicus", "Adeptus Mechanicus"),
   ("Adeptus Custodes", "Adeptus Custodes"),
   ("Imperial Knights", "Imperial Knights"),
   ("Chaos Knights", "Chaos Knights"),
   ("T\x27au Empire", "Tau Empire"),
   ("T\x27au", "Tau Empire"),
   ("Leagues of Votann", "Leagues of Votann"),
   ("Tyranids", "Tyranids"),
   ("Necrons", "Necrons"),
   ("Orks", "Orks"),
   ("Drukhari", "Drukhari"),
   ("Aeldari", "Aeldari"),
   ("Harlequins", "Aeldari"),
   ("Ynnari", "Aeldari"),
   ("Grey Knights", "Grey Knights"),
   ("Inquisition", "Imperial Agents"),
   ("Officio Assassinorum", "Imperial Agents"),
   ("Agents of the Imperium", "Imperial Agents"),
   ("Unaligned", "Unaligned Forces"),
   ("Adeptus Titanicus", "Adeptus Titanicus")]

/-! ## Data model

Reference-dataset rows are modelled with total string fields: the source reads
them with `row["k"]`, `row.get("k", "")` or `row.get("k") or ""`, so a missing
column behaves as `""` except where an `Option` is used below. -/

/-- One row of `Factions.csv`. `parent_id` is read in the source only through
`faction.get("parent_id")`, whose `None` never equals a string, hence `Option`. -/
structure Faction where
  id : String
  name : String
  parent_id : Option String
deriving DecidableEq, Repr

/-- One row of `Datasheets.csv` (a unit type). -/
structure Datasheet where
  id : String
  name : String
  faction_id : String
  keywords : List String
deriving DecidableEq, Repr

/-- One row of `Stratagems.csv` (after `_fix_stratagem_dict`); also the shape
of the entries travelling through the eligibility engine. The source reads
`_stratagem_phases_dict` from the same CSV, so the phase of a stratagem id is
the `phase` field of the rows with that id. -/
structure Stratagem where
  id : String
  name : String
  type : String
  phase : String
  faction_id : String
  subfaction_id : String
  detachment : String
  detachment_id : String
deriving DecidableEq, Repr

/-- One row of `Datasheets_stratagems.csv` (a unit-to-stratagem link); the same
shape is used for the `{"datasheet_id": ..., "stratagem_id": ...}` work items
built by the collection functions. -/
structure DSLink where
  datasheet_id : String
  stratagem_id : String
deriving DecidableEq, Repr

/-- One row of `Detachment_abilities.csv` (only the two fields the engine reads). -/
structure DetAbility where
  detachment : String
  detachment_id : String
deriving DecidableEq, Repr

/-- The five reference tables read by `init_parse`. -/
structure Dataset where
  factions : List Faction
  datasheets : List Datasheet
  stratagems : List Stratagem
  links : List DSLink
  detachment_abilities : List DetAbility
deriving DecidableEq, Repr

/-- A nested selection one level below a roster selection (`@name` only). -/
structure SubSel where
  name : String
deriving DecidableEq, Repr

/-- One top-level selection of a force, with its nested selection names and its
category names. The source's xmltodict trees are single-object-or-list
duck-typed; they are modelled here already normalised to lists, which is the
shape the engine's list branches handle. -/
structure Selection where
  name : String
  subs : List SubSel
  categories : List String
deriving DecidableEq, Repr

/-- One force of the roster. `selections = none` models a force element with
no `"selections"` key. -/
structure RosterForce where
  catalogueName : String
  selections : Option (List Selection)
deriving DecidableEq, Repr

/-- The request options, as the string-valued form mapping of the web UI; a
missing key behaves as `""` and only the value `"on"` enables an option. -/
structure RequestOptions where
  show_units : String := ""
  show_phases : String := ""
  show_empty : String := ""
  show_core : String := ""
  dont_show_renown : String := ""
  dont_show_before : String := ""
deriving DecidableEq, Repr

/-- The mutable module-level state of `battle_parse.py` / `wh40k_lists` that
one parse reads and writes: the request options (read by `init_parse` before
they are overwritten), the cached `_empty_stratagems_list` (recomputed only on
a dataset refresh), `wh40k_lists.ignore_phases_list`,
`wh40k_lists.current_army_of_renown` and `_full_stratagems_list`. -/
structure ParseState where
  requestOptions : RequestOptions
  emptyStratagemsList : List Stratagem
  ignorePhasesList : List String
  currentArmyOfRenown : Option String
  fullStratagemsList : List String
deriving DecidableEq, Repr

/-- Ordered mapping from phase name to stratagem names (a Python dict in
insertion order). -/
abbrev PhaseMap := List (String × List String)

/-- Ordered mapping from unit display name to stratagem names. -/
abbrev UnitMap := List (String × List String)

/-- The triple returned by `parse_battlescribe`: per-force phase mappings
(sorted by game order), per-force unit mappings, and the deduplicated master
list of stratagem ids, sorted ascending. (The source maps each id through an
id-preserving presentation cleanup, `clean_full_stratagem`, before returning;
the ids are the content this development reasons about.) -/
structure PipelineResult where
  phases : List PhaseMap
  unitsOut : List UnitMap
  fullIds : List String
deriving DecidableEq, Repr

/-! ## Name reconciliation (`_find_faction`, `faction_utils`) -/

/-- Embeds `_get_faction_name` (`sublib/battle_parse.py`): split the catalogue
name on `" - "`, strip apostrophes, take the last segment (first segment for
the `"Craftworlds"` special case), and apply the subfaction rename dict. -/
def getFactionName (catalogueName : String) : String :=
  let arr := (pySplit catalogueName " - ").map (fun w => pyReplace w "\x27" "")
  let name0 := arr.getLastD ""
  let name1 := if name0 = "Craftworlds" then arr.headD "" else name0
  match dictGet? SUBFACTION_RENAME_MAPPINGS name1 with
  | some v => v
  | none => name1

/-- Embeds `match_faction_name` (`sublib/faction_utils.py`): case-insensitive
substring containment in either direction. -/
def matchFactionName (factionName candidateName : String) : Bool :=
  strContains (pyLower candidateName) (pyLower factionName) ||
    strContains (pyLower factionName) (pyLower candidateName)

/-- Embeds `extract_subfaction_names` (`sublib/faction_utils.py`): the nested
selection names (apostrophes stripped) of every top-level selection whose name
is in the subfaction-type vocabulary. -/
def extractSubfactionNames (force : RosterForce) (subfactionTypes : List String) : List String :=
  (force.selections.getD []).foldl (fun acc sel =>
    if decide (sel.name ∈ subfactionTypes) then
      acc ++ sel.subs.map (fun e => pyReplace e.name "\x27" "")
    else acc) []

/-- Embeds the per-force body of `_find_faction` (`sublib/battle_parse.py`):
first a case-insensitive substring match (either direction) of the cleaned
catalogue name against every faction name (first hit wins); on a miss, and only
when the force has a `"selections"` key, the subfaction fallback maps each
extracted candidate through the rename dict and substring-matches it. -/
def findFactionForce (factions : List Faction) (force : RosterForce) : Option Faction :=
  let catLower := pyLower (getFactionName force.catalogueName)
  match factions.find? (fun f =>
      strContains catLower (pyLower f.name) || strContains (pyLower f.name) catLower) with
  | some f => some f
  | none =>
    if force.selections.isSome then
      (extractSubfactionNames force SUBFACTION_TYPES).findSome? (fun n =>
        let lookup := (dictGet? SUBFACTION_RENAME_MAPPINGS n).getD n
        factions.find? (fun f => matchFactionName f.name lookup))
    else none

/-- Embeds `_find_faction` over the whole roster list. -/
def findFaction (d : Dataset) (roster : List RosterForce) : List (Option Faction) :=
  roster.map (findFactionForce d.factions)

/-! ## Detachment resolution (`_find_detachment`) -/

/-- Normalisation used for detachment names: `strip`, `lower`, remove spaces. -/
def normDetachmentKey (s : String) : String := pyReplace (pyLower (pyStrip s)) " " ""

/-- Lookup in the normalised-name-to-canonical-name detachment dict built by
`_find_detachment` from rows with a non-empty `detachment` field (later rows
overwrite earlier ones, as in dict construction). -/
def detachmentMapLookup (abilities : List DetAbility) (key : String) : Option String :=
  ((abilities.filter (fun a =>
      decide (a.detachment ≠ "") && decide (normDetachmentKey a.detachment = key))).getLast?).map
    (fun a => pyStrip a.detachment)

/-- Embeds the per-force body of `_find_detachment` (`sublib/battle_parse.py`):
scan the top-level selections for one literally named `"Detachment"` (case
insensitive) and look each of its nested selection names up in the detachment
dict; on a miss, fall back to scanning category names. In the xmltodict shape
the fallback's duck-typed key probe reaches the wrapper itself (and hence its
categories) exactly when the wrapper has no nested `"selections"` key, which is
how the fallback is modelled here. -/
def findDetachmentForce (abilities : List DetAbility) (force : RosterForce) : Option String :=
  let wrappers := force.selections.getD []
  match wrappers.findSome? (fun w =>
      if pyLower w.name = "detachment" then
        w.subs.findSome? (fun ds => detachmentMapLookup abilities (normDetachmentKey ds.name))
      else none) with
  | some dname => some dname
  | none =>
    wrappers.findSome? (fun w =>
      if w.subs.isEmpty then
        w.categories.findSome? (fun cname =>
          detachmentMapLookup abilities (normDetachmentKey cname))
      else none)

/-- Embeds `_find_detachment` over the whole roster list. -/
def findDetachment (d : Dataset) (roster : List RosterForce) : List (Option String) :=
  roster.map (findDetachmentForce d.detachment_abilities)

/-- The `user_detachments` set built inside `_prepare_stratagems_phase` and
`_prepare_stratagems_units`: the lowered, stripped names of every force's
detected detachment (modelled as a list; only membership is consumed). -/
def userDetachmentNames (d : Dataset) (roster : List RosterForce) : List String :=
  (findDetachment d roster).foldl (fun acc o =>
    match o with
    | some n => if n ≠ "" then acc ++ [pyStrip (pyLower n)] else acc
    | none => acc) []

/-- The `detachment_name_to_id` dict of the same functions: rows with both
fields non-empty, keyed by the lowered stripped name, later rows winning. -/
def detachmentNameToId (abilities : List DetAbility) (key : String) : Option String :=
  ((abilities.filter (fun a =>
      decide (a.detachment ≠ "") && decide (a.detachment_id ≠ "") &&
        decide (pyStrip (pyLower a.detachment) = key))).getLast?).map (·.detachment_id)

/-- The `user_detachment_ids` set of the same functions. -/
def userDetachmentIds (d : Dataset) (roster : List RosterForce) : List String :=
  (userDetachmentNames d roster).foldl (fun acc n =>
    match detachmentNameToId d.detachment_abilities n with
    | some i => acc ++ [i]
    | none => acc) []

/-! ## Army of renown, units -/

/-- Hit test of one selection inside `_find_army_of_renown`
(`sublib/battle_parse.py`): a selection literally named `"Army of Renown"`
yields the name of its single nested selection (a `KeyError` - modelled as
`Except.error` - when it has none); a selection whose name merely contains the
string yields that name, apostrophes stripped, with the first 17 characters
dropped. `none` means the selection does not decide the army of renown. -/
def renownOfSelection (sel : Selection) : Option (Except String String) :=
  if sel.name = "Army of Renown" then
    some (match sel.subs.head? with
      | some sub => .ok (pyReplace sub.name "\x27" "")
      | none => .error "KeyError: selections")
  else if strContains sel.name "Army of Renown" then
    some (.ok (pyDrop (pyReplace sel.name "\x27" "") 17))
  else none

/-- Worker for `findArmyOfRenown`. The carried value models the source's
`army_of_renown_name` local, which is initialised once before the force loop
and not reset between forces, so a force without a hit inherits the previous
force's value. -/
def findArmyOfRenownGo : List RosterForce → Option String → Except String (List (Option String))
  | [], _ => .ok []
  | f :: rest, carried =>
    match f.selections with
    | none => .error "KeyError: selections"
    | some sels =>
      match sels.findSome? renownOfSelection with
      | some (.error e) => .error e
      | some (.ok n) =>
        match findArmyOfRenownGo rest (some n) with
        | .ok r => .ok (some n :: r)
        | .error e => .error e
      | none =>
        match findArmyOfRenownGo rest carried with
        | .ok r => .ok (carried :: r)
        | .error e => .error e

/-- Embeds `_find_army_of_renown` (`sublib/battle_parse.py`). Unlike
`_find_faction` / `_find_units`, it indexes `roster_elem["selections"]`
without a guard, so a force with no selections raises (`Except.error`). -/
def findArmyOfRenown (roster : List RosterForce) : Except String (List (Option String)) :=
  findArmyOfRenownGo roster none

/-- Embeds `_compare_unit_names` (`sublib/battle_parse.py`): strip apostrophes
from the BattleScribe name, accept when the unit rename dict maps it exactly to
the Wahapedia name, otherwise accept only exact equality. -/
def compareUnitNames (wahapediaName battlescribeName : String) : Bool :=
  let clean := pyReplace battlescribeName "\x27" ""
  (match dictGet? UNIT_RENAME_MAPPINGS clean with
   | some mapped => decide (mapped = wahapediaName)
   | none => false) || decide (wahapediaName = clean)

/-- Embeds the per-force body of `_find_units` (`sublib/battle_parse.py`): for
a resolved faction, each top-level selection not in the non-unit list is
matched against every datasheet of the faction or its parent faction, with
structural deduplication; an unresolved faction or missing selections yield
the empty unit set. -/
def findUnitsForce (d : Dataset) (factionOpt : Option Faction) (force : RosterForce) :
    List Datasheet :=
  match factionOpt with
  | none => []
  | some f =>
    match force.selections with
    | none => []
    | some sels =>
      sels.foldl (fun acc sel =>
        if decide (sel.name ∈ SELECTION_NON_UNIT_TYPES) then acc
        else d.datasheets.foldl (fun acc2 ds =>
          if (decide (f.id = ds.faction_id) || decide (f.parent_id = some ds.faction_id)) &&
              compareUnitNames ds.name sel.name && !(decide (ds ∈ acc2)) then
            acc2 ++ [ds]
          else acc2) acc) []

/-- Embeds `_find_units` over the whole roster (the faction list and the
roster list are walked in parallel, as the source indexes both by `id`). -/
def findUnits (d : Dataset) (factions : List (Option Faction)) (roster : List RosterForce) :
    List (List Datasheet) :=
  (factions.zip roster).map (fun p => findUnitsForce d p.1 p.2)

/-! ## Stratagem lookup and validity -/

/-- The raw lookup at the heart of `_get_stratagem_from_id`: first stratagem
row with the given id (also the `clean_stratagem=True` behaviour). -/
def lookupStratagem (stratagems : List Stratagem) (sid : String) : Option Stratagem :=
  stratagems.find? (fun s => decide (s.id = sid))

/-- Embeds `_get_stratagem_from_id` (`sublib/battle_parse.py`) with its two
name decorations: under `show_units=on` with a units list, the name is suffixed
with `[i]` for each linked unit (1-based first index); under `show_phases=on`
without a units list, the name is suffixed with the first letters of each
matching phase row. All other fields are returned unchanged. -/
def getStratagemFull (d : Dataset) (opts : RequestOptions) (sid : String)
    (entriesOpt : Option (List DSLink)) (unitsOpt : Option (List Datasheet)) :
    Option Stratagem :=
  match lookupStratagem d.stratagems sid with
  | none => none
  | some s =>
    if decide (opts.show_units = "on") && unitsOpt.isSome then
      let units := unitsOpt.getD []
      let newName :=
        match entriesOpt with
        | some entries =>
          entries.foldl (fun n e =>
            if decide (e.stratagem_id = sid) then
              units.foldl (fun n2 u =>
                if decide (u.id = e.datasheet_id) then
                  n2 ++ "[" ++ natToStr (listPos units u + 1) ++ "]"
                else n2) n
            else n) s.name
        | none => s.name
      some { s with name := newName }
    else if decide (opts.show_phases = "on") && unitsOpt.isNone then
      let newName :=
        d.stratagems.foldl (fun n sp =>
          if decide (sp.id = sid) then n ++ " [" ++ getFirstLetters sp.phase ++ "]" else n)
          s.name
      some { s with name := newName }
    else some s

/-- Embeds `_get_stratagem_phase` (`sublib/battle_parse.py`): phase of the
first stratagem row with the given id (`none` when absent, like the source's
implicit `None`). -/
def getStratagemPhase (d : Dataset) (sid : String) : Option String :=
  (lookupStratagem d.stratagems sid).map (·.phase)

/-- The force-include test of `_stratagem_is_valid`: the current army of
renown is set (neither `None` nor `""`) and occurs in the stratagem type. -/
def renownHit (renown : Option String) (stype : String) : Bool :=
  match renown with
  | some v => decide (v ≠ "") && strContains stype v
  | none => false

/-- Embeds `_stratagem_is_valid` (`sublib/battle_parse.py`). The decorations of
`_get_stratagem_from_id` never change the `type` field, so the lookup is taken
raw. `ignore` is `wh40k_lists.ignore_phases_list` and `renown` is
`wh40k_lists.current_army_of_renown` (active when neither `None` nor `""`). -/
def stratagemIsValid (d : Dataset) (opts : RequestOptions) (ignore : List String)
    (renown : Option String) (sid : String) : Bool :=
  match lookupStratagem d.stratagems sid with
  | none => false
  | some s =>
    if INVALID_STRATAGEM_TYPES.any (fun t => strContains s.type t) then false
    else if decide (opts.dont_show_renown ≠ "on") && renownHit renown s.type then true
    else if decide (opts.dont_show_renown ≠ "on") &&
        ARMY_OF_RENOWN_LIST.any (fun a => strContains s.type a) then false
    else if (match getStratagemPhase d sid with
             | some p => decide (p ∈ ignore)
             | none => false) then false
    else decide (s.type ≠ "Stratagem") &&
      VALID_STRATAGEM_TYPES.any (fun t => strContains s.type t)

/-! ## Stratagem collection (buckets) -/

/-- Embeds `_find_empty_stratagems` (`sublib/battle_parse.py`): the valid
stratagems with no link row at all. Run by `init_parse` on a dataset refresh,
so its validity check sees the module state of that moment. -/
def findEmptyStratagems (d : Dataset) (opts : RequestOptions) (ignore : List String)
    (renown : Option String) : List Stratagem :=
  d.stratagems.foldl (fun acc s =>
    if stratagemIsValid d opts ignore renown s.id then
      if d.links.any (fun l => decide (s.id = l.stratagem_id)) then acc else acc ++ [s]
    else acc) []

/-- Embeds `_filter_empty_stratagems` (`sublib/battle_parse.py`): per force,
the unit-independent stratagems whose subfaction id, faction id or
parent-faction id matches the force's resolved faction, as link-shaped work
items with an empty datasheet id. -/
def filterEmptyStratagems (emptyList : List Stratagem) (factions : List (Option Faction)) :
    List (List DSLink) :=
  factions.map (fun fo =>
    match fo with
    | none => []
    | some f =>
      emptyList.foldl (fun acc es =>
        if decide (f.id = es.subfaction_id) || decide (f.id = es.faction_id) ||
            decide (f.parent_id = some es.faction_id) then
          acc ++ [⟨"", es.id⟩]
        else acc) [])

/-- Embeds `filter_core_stratagems` (`sublib/stratagems/stratagem_filters.py`):
link-shaped work items for the unit-independent stratagems whose type contains
`"core"` case-insensitively, or nothing unless `show_core` is `"on"`. -/
def filterCoreStratagems (emptyList : List Stratagem) (showCoreOption : String) :
    List DSLink :=
  if decide (showCoreOption ≠ "on") then []
  else
    emptyList.foldl (fun acc es =>
      if strContains (pyLower es.type) "core" then acc ++ [⟨"", es.id⟩] else acc) []

/-- Embeds `filter_out_core_stratagems`
(`sublib/stratagems/stratagem_filters.py`) as called by `_process_forces` with
`_get_stratagem_from_id` as the lookup: drop each work item whose stratagem id
is non-empty and resolves to a stratagem whose type contains `"core"`
case-insensitively. -/
def filterOutCoreStratagems (d : Dataset) (opts : RequestOptions) (entries : List DSLink) :
    List DSLink :=
  entries.filter (fun e =>
    !(decide (e.stratagem_id ≠ "") &&
      (match getStratagemFull d opts e.stratagem_id none none with
       | some s => strContains (pyLower s.type) "core"
       | none => false)))

/-- Embeds `_find_stratagems` (`sublib/battle_parse.py`): per force, every link
row whose datasheet id is one of the force's resolved units, in unit order. -/
def findStratagems (d : Dataset) (unitsPerForce : List (List Datasheet)) :
    List (List DSLink) :=
  unitsPerForce.map (fun units =>
    units.foldl (fun acc u =>
      acc ++ d.links.filter (fun l => decide (l.datasheet_id = u.id))) [])

/-! ## Phase normalisation and subfaction inference -/

/-- Embeds `_normalize_phases` (`sublib/battle_parse.py`) on one phase string
(the string case of its input; the callers always pass the `phase` field of a
stratagem row): split on the literal `" or "`, strip each part, and keep
exactly the parts present in the canonical phase vocabulary. -/
def normalizePhases (phase : String) : List String :=
  ((pySplit phase " or ").map pyStrip).filter (fun p => decide (p ∈ GAME_PHASES))

/-- Embeds `_get_subfaction_from_units` (`sublib/battle_parse.py`): first unit
keyword that, lowered and with the literal `"faction: "` removed and stripped,
is a (lowered) key of the subfaction rename dict; yields the dict's value. -/
def subfactionFromUnits (units : List Datasheet) : Option String :=
  units.findSome? (fun u =>
    u.keywords.findSome? (fun kw =>
      let kc := pyStrip (pyReplace (pyLower kw) "faction: " "")
      ((SUBFACTION_RENAME_MAPPINGS.filter (fun kv => decide (pyLower kv.1 = kc))).getLast?).map
        (·.2)))

/-! ## Result maps -/

/-- Insertion into a phase map, as `_prepare_stratagems_phase` performs it: a
new phase key is appended; an existing key gets the name appended unless
already present. -/
def insertName : PhaseMap → String → String → PhaseMap
  | [], p, n => [(p, [n])]
  | (k, v) :: rest, p, n =>
    if k = p then (k, if decide (n ∈ v) then v else v ++ [n]) :: rest
    else (k, v) :: insertName rest p n

/-- Assignment `m[k] = v` on an insertion-ordered dict: overwrite in place or
append a new key. -/
def setKey : UnitMap → String → List String → UnitMap
  | [], k, v => [(k, v)]
  | (k0, v0) :: rest, k, v =>
    if k0 = k then (k0, v) :: rest else (k0, v0) :: setKey rest k v

/-- Append one name to the list at an existing key (`m[k].append(n)`); at the
call sites the key is always present (Python would raise `KeyError` otherwise),
so a missing key is a no-op. -/
def appendName : UnitMap → String → String → UnitMap
  | [], _, _ => []
  | (k0, v0) :: rest, k, n =>
    if k0 = k then (k0, v0 ++ [n]) :: rest else (k0, v0) :: appendName rest k n

/-- The unit display name used by `_prepare_stratagems_units`: the raw unit
name, prefixed with its 1-based position when the unit-indexed view is on. -/
def displayUnitName (opts : RequestOptions) (units : List Datasheet) (u : Datasheet) : String :=
  if decide (opts.show_units = "on") then
    "[" ++ natToStr (listPos units u + 1) ++ "] " ++ u.name
  else u.name

/-- The initial unit map of `_prepare_stratagems_units`: every declared unit's
display name mapped to the empty list, in declaration order (a duplicated
display name is a single dict key). -/
def initUnitsMap (opts : RequestOptions) (units : List Datasheet) : UnitMap :=
  units.foldl (fun m u => setKey m (displayUnitName opts units u) []) []

/-! ## Per-force stratagem organisation -/

/-- The detachment rejection test shared verbatim by `_prepare_stratagems_phase`
and `_prepare_stratagems_units`: a stratagem carrying a non-empty detachment
name or detachment id is rejected unless the name is among the user detachment
names or the id among the user detachment ids; a stratagem with both fields
empty is never rejected here. -/
def detachmentRejected (userNames userIds : List String) (s : Stratagem) : Bool :=
  let n := pyStrip (pyLower s.detachment)
  let i := pyStrip s.detachment_id
  (decide (n ≠ "") || decide (i ≠ "")) &&
    !((decide (n ≠ "") && decide (n ∈ userNames)) || (decide (i ≠ "") && decide (i ∈ userIds)))

/-- The subfaction rejection test of `_prepare_stratagems_phase`: a non-empty
subfaction id that differs from the subfaction inferred from the force's units
(`None` never equals a string). -/
def subfactionRejected (units : List Datasheet) (s : Stratagem) : Bool :=
  decide (s.subfaction_id ≠ "") && decide (some s.subfaction_id ≠ subfactionFromUnits units)

/-- The accept path of `_prepare_stratagems_phase` once the decorated lookup
has produced a stratagem: apply the detachment and subfaction filters, then
contribute the name to each normalised phase of the row and the id (once) to
the master list. -/
def phaseEntryHit (unames uids : List String) (units : List Datasheet)
    (acc2 : PhaseMap × List String) (sp full : Stratagem) : PhaseMap × List String :=
  if detachmentRejected unames uids full then acc2
  else if subfactionRejected units full then acc2
  else
    ((normalizePhases sp.phase).foldl (fun m p => insertName m p full.name) acc2.1,
     if decide (full.id ∈ acc2.2) then acc2.2 else acc2.2 ++ [full.id])

/-- The body of `_prepare_stratagems_phase` for one surviving work item: every
stratagem row with the item's id is taken through the decorated lookup and the
accept path. -/
def phaseEntryStep (d : Dataset) (opts : RequestOptions) (unames uids : List String)
    (entries : List DSLink) (units : List Datasheet) (acc : PhaseMap × List String)
    (e : DSLink) : PhaseMap × List String :=
  d.stratagems.foldl (fun acc2 sp =>
    if decide (sp.id = e.stratagem_id) then
      match getStratagemFull d opts e.stratagem_id (some entries) (some units) with
      | none => acc2
      | some full => phaseEntryHit unames uids units acc2 sp full
    else acc2) acc

/-- Embeds `_prepare_stratagems_phase` (`sublib/battle_parse.py`). A work item
is processed only if some link row carries exactly its (datasheet id,
stratagem id) pair and its stratagem is valid; the phase map starts empty and
the master id list is threaded through. The user detachment names and ids are
recomputed from the whole roster, as the source re-runs `_find_detachment`. -/
def prepareStratagemsPhase (d : Dataset) (opts : RequestOptions) (roster : List RosterForce)
    (ignore : List String) (renown : Option String) (entries : List DSLink)
    (units : List Datasheet) (full0 : List String) : PhaseMap × List String :=
  let unames := userDetachmentNames d roster
  let uids := userDetachmentIds d roster
  entries.foldl (fun acc e =>
    if d.links.any (fun l =>
        decide (l.datasheet_id = e.datasheet_id) && decide (l.stratagem_id = e.stratagem_id)) then
      if stratagemIsValid d opts ignore renown e.stratagem_id then
        phaseEntryStep d opts unames uids entries units acc e
      else acc
    else acc) ([], full0)

/-- The body of `_prepare_stratagems_units` for one valid work item: each unit
whose id equals the item's datasheet id receives the stratagem's (decorated)
name, provided the detachment filter and the subfaction acceptance pass; the
id joins the master list once. -/
def unitEntryHit (opts : RequestOptions) (unames uids : List String)
    (units : List Datasheet) (acc2 : UnitMap × List String) (u : Datasheet)
    (full : Stratagem) : UnitMap × List String :=
  if detachmentRejected unames uids full then acc2
  else if decide (full.subfaction_id = "") ||
      decide (some full.subfaction_id = subfactionFromUnits units) then
    (appendName acc2.1 (displayUnitName opts units u) full.name,
     if decide (full.id ∈ acc2.2) then acc2.2 else acc2.2 ++ [full.id])
  else acc2

/-- The per-item body of `_prepare_stratagems_units`: each unit whose id equals
the item's datasheet id receives the stratagem through the accept path
`unitEntryHit`. -/
def unitEntryStep (d : Dataset) (opts : RequestOptions) (unames uids : List String)
    (units : List Datasheet) (acc : UnitMap × List String) (e : DSLink) :
    UnitMap × List String :=
  units.foldl (fun acc2 u =>
    if decide (e.datasheet_id = u.id) then
      match getStratagemFull d opts e.stratagem_id none none with
      | none => acc2
      | some full => unitEntryHit opts unames uids units acc2 u full
    else acc2) acc

/-- Embeds `_prepare_stratagems_units` (`sublib/battle_parse.py`): the unit map
starts with every declared unit (empty lists), then each valid work item is
distributed to the units it links to. -/
def prepareStratagemsUnits (d : Dataset) (opts : RequestOptions) (roster : List RosterForce)
    (ignore : List String) (renown : Option String) (entries : List DSLink)
    (units : List Datasheet) (full0 : List String) : UnitMap × List String :=
  let unames := userDetachmentNames d roster
  let uids := userDetachmentIds d roster
  entries.foldl (fun acc e =>
    if stratagemIsValid d opts ignore renown e.stratagem_id then
      unitEntryStep d opts unames uids units acc e
    else acc) (initUnitsMap opts units, full0)

/-! ## Force processing and result assembly -/

/-- The conditional core removal of `_process_forces`: the work items are
passed through `filter_out_core_stratagems` exactly when core display was not
requested. -/
def maybeFilterOutCore (d : Dataset) (opts : RequestOptions) (entries : List DSLink) :
    List DSLink :=
  if decide (opts.show_core ≠ "on") then filterOutCoreStratagems d opts entries
  else entries

/-- Worker for `processForces`, one recursion step per force. Per iteration the
source indexes the parallel per-force lists by the loop counter; the
per-iteration emptiness guards on the empty and army-of-renown data mirror the
source (those lists are either empty or of the same length as the faction
list at every call site). `renown` and `full` thread the module state
`wh40k_lists.current_army_of_renown` and `_full_stratagems_list`. -/
def processForcesGo (d : Dataset) (opts : RequestOptions) (roster : List RosterForce)
    (ignore : List String) (emptyData : List (List DSLink)) (renownData : List (Option String))
    (core : List DSLink) (unitSpecific : List (List DSLink)) (units : List (List Datasheet)) :
    List (Option Faction) → Nat → Option String → List String →
      List PhaseMap × List UnitMap × Option String × List String
  | [], _, renown, full => ([], [], renown, full)
  | _ :: restFactions, i, renown, full =>
    let curEmpty := if decide (emptyData.length ≠ 0) then emptyData.getD i [] else []
    let renown1 := if decide (renownData.length ≠ 0) then renownData.getD i none else renown
    let selected := unitSpecific.getD i [] ++ curEmpty ++ core
    let selected2 := maybeFilterOutCore d opts selected
    let u := units.getD i []
    let pr := prepareStratagemsPhase d opts roster ignore renown1 selected2 u full
    let ur := prepareStratagemsUnits d opts roster ignore renown1 selected2 u pr.2
    let rest := processForcesGo d opts roster ignore emptyData renownData core unitSpecific units
      restFactions (i + 1) renown1 ur.2
    (pr.1 :: rest.1, ur.1 :: rest.2.1, rest.2.2.1, rest.2.2.2)

/-- Embeds `_process_forces` (`sublib/battle_parse.py`): per force, the
unit-specific, empty and core work items are concatenated, the core items are
filtered out unless requested, and the phase and unit maps are built. -/
def processForces (d : Dataset) (opts : RequestOptions) (roster : List RosterForce)
    (ignore : List String) (emptyData : List (List DSLink)) (renownData : List (Option String))
    (core : List DSLink) (unitSpecific : List (List DSLink)) (units : List (List Datasheet))
    (factions : List (Option Faction)) (renown : Option String) (full : List String) :
    List PhaseMap × List UnitMap × Option String × List String :=
  processForcesGo d opts roster ignore emptyData renownData core unitSpecific units
    factions 0 renown full

/-- Ascending code-point comparison of strings (Python `<` on `str`). -/
def charsLt : List Char → List Char → Bool
  | [], [] => false
  | [], _ :: _ => true
  | _ :: _, [] => false
  | a :: as, b :: bs => if a = b then charsLt as bs else decide (a.toNat < b.toNat)

/-- Sorted insertion for `sortIds`. -/
def insertIdSorted (x : String) : List String → List String
  | [] => [x]
  | y :: ys => if charsLt x.data y.data then x :: y :: ys else y :: insertIdSorted x ys

/-- Embeds the `list.sort()` in `_get_full_stratagems_list`
(`sublib/battle_parse.py`): ascending sort of the collected stratagem ids. -/
def sortIds : List String → List String
  | [] => []
  | x :: xs => insertIdSorted x (sortIds xs)

/-- Sorted insertion by the first (index) component, stable for equal keys. -/
def insertByIdx (x : Nat × (String × List String)) :
    List (Nat × (String × List String)) → List (Nat × (String × List String))
  | [] => [x]
  | y :: ys => if decide (x.1 < y.1) then x :: y :: ys else y :: insertByIdx x ys

/-- Stable insertion sort by the index component. -/
def sortByIdx : List (Nat × (String × List String)) → List (Nat × (String × List String))
  | [] => []
  | x :: xs => insertByIdx x (sortByIdx xs)

/-- Tag each phase key of a map with its index in the canonical phase list;
the first key not in the list raises (`ValueError` from `list.index` inside
the `sorted` key function). -/
def tagPhaseIdx : PhaseMap → Except String (List (Nat × (String × List String)))
  | [] => .ok []
  | kv :: rest =>
    match firstIdxOf GAME_PHASES kv.1 with
    | some i =>
      match tagPhaseIdx rest with
      | .ok r => .ok ((i, kv) :: r)
      | .error e => .error e
    | none => .error ("ValueError: phase not in phases list: " ++ kv.1)

/-- Embeds the per-force body of `_sort_phases_by_game_order`
(`sublib/battle_parse.py`): stable sort of the phase keys by their index in
the canonical phase list (a key absent from the list raises). -/
def sortPhaseElem (m : PhaseMap) : Except String PhaseMap :=
  match tagPhaseIdx m with
  | .ok tagged => .ok ((sortByIdx tagged).map (·.2))
  | .error e => .error e

/-- Embeds `_sort_phases_by_game_order` over the per-force phase maps. -/
def sortPhasesByGameOrder : List PhaseMap → Except String (List PhaseMap)
  | [] => .ok []
  | m :: rest =>
    match sortPhaseElem m with
    | .ok m2 =>
      match sortPhasesByGameOrder rest with
      | .ok r => .ok (m2 :: r)
      | .error e => .error e
    | .error e => .error e

/-! ## The pipeline (`parse_battlescribe`) -/

/-- Modelled from the spec: `wh40k_lists.clean_list`, whose module is not under
the source tree, resets the parse-scoped mutable lists of `wh40k_lists` - the
phase-ignore list (which `_initialize_parsing` then conditionally refills) and
the current army-of-renown name - so that, per the spec, the phase-ignore list
is "only populated when the user opts to exclude before-battle rules" and no
shared mutable state leaks between runs. -/
def cleanListState (s : ParseState) : ParseState :=
  { s with ignorePhasesList := [], currentArmyOfRenown := none }

/-- Embeds `_initialize_parsing` (`sublib/battle_parse.py`), with `refreshDb`
standing for `wahapedia_db.init_db()` deciding a dataset refresh: on a refresh
`init_parse` recomputes the empty-stratagem cache, using the module state of
that moment (the previous request's options, ignore list and army-of-renown);
then `clean_list()` runs, the master id list is cleared, the request options
are installed, and the before-battle phase is appended to the ignore list when
opted. -/
def initializeParsing (d : Dataset) (opts : RequestOptions) (refreshDb : Bool)
    (s : ParseState) : ParseState :=
  let s1 :=
    if refreshDb then
      { s with emptyStratagemsList :=
          findEmptyStratagems d s.requestOptions s.ignorePhasesList s.currentArmyOfRenown }
    else s
  let s2 := cleanListState s1
  let s3 := { s2 with fullStratagemsList := [], requestOptions := opts }
  if decide (opts.dont_show_before = "on") then
    { s3 with ignorePhasesList := s3.ignorePhasesList ++ ["Before battle"] }
  else s3

/-- Faction, detachment and unit resolution, bucket collection
(`_collect_all_stratagems`) and force processing, as composed by
`parse_battlescribe` (`sublib/battle_parse.py`) for given army-of-renown data. -/
def pipelineForces (d : Dataset) (roster : List RosterForce) (opts : RequestOptions)
    (s : ParseState) (renownData : List (Option String)) :
    List PhaseMap × List UnitMap × Option String × List String :=
  processForces d opts roster s.ignorePhasesList
    (if decide (opts.show_empty = "on") then
      filterEmptyStratagems s.emptyStratagemsList (findFaction d roster)
    else [])
    renownData (filterCoreStratagems s.emptyStratagemsList opts.show_core)
    (findStratagems d (findUnits d (findFaction d roster) roster))
    (findUnits d (findFaction d roster) roster) (findFaction d roster)
    s.currentArmyOfRenown s.fullStratagemsList

/-- The pipeline after `_initialize_parsing`: conditional army-of-renown scan,
`pipelineForces`, then phase sorting and result assembly, as composed by
`parse_battlescribe` (`sublib/battle_parse.py`). The roster is given already
parsed (`_read_ros_file` / `_prepare_roster_list` are file-level plumbing);
the source's unused `wh_detachment` binding is dropped (`_find_detachment` is
re-run inside the prepare functions). -/
def parseAfterInit (d : Dataset) (roster : List RosterForce) (opts : RequestOptions)
    (s : ParseState) : Except String (PipelineResult × ParseState) :=
  match (if decide (opts.dont_show_renown ≠ "on") then findArmyOfRenown roster
         else .ok []) with
  | .error e => .error e
  | .ok renownData =>
    let pf := pipelineForces d roster opts s renownData
    match sortPhasesByGameOrder pf.1 with
    | .error e => .error e
    | .ok sortedPhases =>
      .ok (⟨sortedPhases, pf.2.1, sortIds pf.2.2.2⟩,
        { s with currentArmyOfRenown := pf.2.2.1, fullStratagemsList := pf.2.2.2 })

/-- Embeds `parse_battlescribe` (`sublib/battle_parse.py`) on an already-parsed
roster: initialisation followed by the resolution/eligibility/organisation
pipeline. -/
def parseBattlescribe (d : Dataset) (roster : List RosterForce) (opts : RequestOptions)
    (refreshDb : Bool) (s0 : ParseState) : Except String (PipelineResult × ParseState) :=
  parseAfterInit d roster opts (initializeParsing d opts refreshDb s0)

/-! ## The core-stratagem section of the new architecture -/

/-- Embeds the `show_core` section of `_filter_relevant_stratagems`
(`app/services/roster_service.py`, the branch run when core display is
requested): walk all stratagems; skip those with an invalid type; of those
whose type contains `"core"` case-insensitively and whose name has not been
added yet, skip the one named `"NEW ORDERS"` and append every other, recording
its name. `added` is the set of names already added by the earlier unit and
detachment sections. -/
def coreStratagemAdditions : List Stratagem → List String → List Stratagem
  | [], _ => []
  | s :: rest, added =>
    if INVALID_STRATAGEM_TYPES.any (fun t => strContains s.type t) then
      coreStratagemAdditions rest added
    else if strContains (pyLower s.type) "core" && !(decide (s.name ∈ added)) then
      if s.name = "NEW ORDERS" then coreStratagemAdditions rest added
      else s :: coreStratagemAdditions rest (s.name :: added)
    else coreStratagemAdditions rest added

/-! ## Concrete fixtures used by the claim theorems -/

deriving instance DecidableEq for Except

/-- A Space Marines faction row. -/
def smFaction : Faction := ⟨"SM", "Space Marines", none⟩

/-- A Space Marines datasheet. -/
def dsIntercessor : Datasheet := ⟨"000000001", "Intercessor Squad", "SM", []⟩

/-- A valid, unit-independent (never linked) faction-wide stratagem. -/
def stratHold : Stratagem :=
  ⟨"R1", "HOLD THE LINE", "Battle Tactic Stratagem", "Command phase", "SM", "", "", ""⟩

/-- A stratagem scoped to the "Gladius Task Force" detachment. -/
def stratGladius : Stratagem :=
  ⟨"A1", "GLADIUS RULE", "Battle Tactic Stratagem", "Command phase", "SM", "",
   "Gladius Task Force", "GTF"⟩

/-- A stratagem scoped to the "Anvil Siege Force" detachment. -/
def stratAnvil : Stratagem :=
  ⟨"B1", "ANVIL RULE", "Battle Tactic Stratagem", "Command phase", "SM", "",
   "Anvil Siege Force", "ASF"⟩

/-- A generic stratagem with both detachment fields empty. -/
def stratGeneric : Stratagem :=
  ⟨"G1", "GENERIC RULE", "Battle Tactic Stratagem", "Fight phase", "SM", "", "", ""⟩

/-- Detachment-ability rows naming two detachments. -/
def abGladius : DetAbility := ⟨"Gladius Task Force", "GTF"⟩

/-- Second detachment-ability row. -/
def abAnvil : DetAbility := ⟨"Anvil Siege Force", "ASF"⟩

/-- Dataset for the unit-independent-rule scenario: one faction, one datasheet,
one never-linked stratagem, no link rows. -/
def dsetEmptyRule : Dataset := ⟨[smFaction], [dsIntercessor], [stratHold], [], []⟩

/-- A single-force roster declaring one Intercessor Squad. -/
def rosterSM : List RosterForce :=
  [⟨"Space Marines", some [⟨"Intercessor Squad", [], []⟩]⟩]

/-- The pristine module state of a fresh process: empty caches, no options. -/
def state0 : ParseState := ⟨{}, [], [], none, []⟩

/-- A force whose Detachment selection resolves to "Gladius Task Force" and
which declares one Intercessor Squad. -/
def forceGladius : RosterForce :=
  ⟨"Space Marines",
   some [⟨"Detachment", [⟨"Gladius Task Force"⟩], []⟩, ⟨"Intercessor Squad", [], []⟩]⟩

/-- A force whose Detachment selection resolves to "Anvil Siege Force". -/
def forceAnvil : RosterForce :=
  ⟨"Space Marines", some [⟨"Detachment", [⟨"Anvil Siege Force"⟩], []⟩]⟩

/-- Dataset for the detachment-scoping scenarios: the Anvil-scoped rule is
linked to the Intercessor datasheet. -/
def dsetAnvilLinked : Dataset :=
  ⟨[smFaction], [dsIntercessor], [stratAnvil], [⟨"000000001", "B1"⟩], [abGladius, abAnvil]⟩

/-- Dataset with all three detachment-scenario stratagems linked to the
Intercessor datasheet. -/
def dsetDetachments : Dataset :=
  ⟨[smFaction], [dsIntercessor], [stratGladius, stratAnvil, stratGeneric],
   [⟨"000000001", "A1"⟩, ⟨"000000001", "B1"⟩, ⟨"000000001", "G1"⟩], [abGladius, abAnvil]⟩

/-- Request options with the empty-rule and core-rule toggles set from two
booleans (the two values the UI submits). -/
def optsEmptyCore (b c : Bool) : RequestOptions :=
  { show_empty := if b then "on" else "off", show_core := if c then "on" else "off" }

/-- A force whose catalogue name matches no faction name but which carries a
Chapter selection naming Ultramarines. -/
def forceAstartes : RosterForce :=
  ⟨"Adeptus Astartes", some [⟨"Chapter", [⟨"Ultramarines"⟩], []⟩]⟩

/-- Whether a stratagem is visible anywhere in a pipeline result: in the master
id list, or by name in some phase map or unit map. -/
def ruleInReportB (r : PipelineResult) (s : Stratagem) : Bool :=
  decide (s.id ∈ r.fullIds) ||
    r.phases.any (fun m => m.any (fun kv => decide (s.name ∈ kv.2))) ||
    r.unitsOut.any (fun m => m.any (fun kv => decide (s.name ∈ kv.2)))

/-- Whether a pipeline run succeeded and excludes the given stratagem from
every part of its result. -/
def reportExcludesB (x : Except String (PipelineResult × ParseState)) (s : Stratagem) : Bool :=
  match x with
  | .ok (r, _) => !(ruleInReportB r s)
  | .error _ => false

/-- Whether a pipeline run succeeded and shows the given name in the phase map
of the force at the given position. -/
def reportHasPhaseNameB (x : Except String (PipelineResult × ParseState)) (i : Nat)
    (name : String) : Bool :=
  match x with
  | .ok (r, _) => (r.phases.getD i []).any (fun kv => decide (name ∈ kv.2))
  | .error _ => false

/-! ## Helper lemmas -/

/-- Invariant preservation along a left fold. -/
theorem foldlInv {α β : Type} {P : β → Prop} (f : β → α → β) (l : List α) (b : β)
    (h0 : P b) (hstep : ∀ b2 a, a ∈ l → P b2 → P (f b2 a)) : P (l.foldl f b) := by
  induction l generalizing b with
  | nil => exact h0
  | cons x xs ih =>
    exact ih (f b x) (hstep b x (List.mem_cons_self x xs) h0)
      (fun b2 a ha hb => hstep b2 a (List.mem_cons_of_mem x ha) hb)

/-- A successful stratagem lookup returns a row of the table bearing the id. -/
theorem lookupStratagem_spec {l : List Stratagem} {sid : String} {s : Stratagem}
    (h : lookupStratagem l sid = some s) : s ∈ l ∧ s.id = sid := by
  refine ⟨List.mem_of_find?_eq_some h, ?_⟩
  have h2 := List.find?_some h
  simpa using h2

/-- The decorated lookup only rewrites the name: every other field agrees with
the raw row. -/
theorem getStratagemFull_fields {d : Dataset} {opts : RequestOptions} {sid : String}
    {eo : Option (List DSLink)} {uo : Option (List Datasheet)} {full : Stratagem}
    (h : getStratagemFull d opts sid eo uo = some full) :
    ∃ s, lookupStratagem d.stratagems sid = some s ∧ full.id = s.id ∧ full.type = s.type ∧
      full.subfaction_id = s.subfaction_id ∧ full.detachment = s.detachment ∧
      full.detachment_id = s.detachment_id := by
  unfold getStratagemFull at h
  cases hl : lookupStratagem d.stratagems sid with
  | none => rw [hl] at h; cases h
  | some s =>
    rw [hl] at h
    dsimp only at h
    refine ⟨s, rfl, ?_⟩
    split at h
    · have h2 := Option.some.inj h
      subst h2
      exact ⟨rfl, rfl, rfl, rfl, rfl⟩
    · split at h
      · have h2 := Option.some.inj h
        subst h2
        exact ⟨rfl, rfl, rfl, rfl, rfl⟩
      · have h2 := Option.some.inj h
        subst h2
        exact ⟨rfl, rfl, rfl, rfl, rfl⟩

/-- Membership through sorted insertion of ids. -/
theorem mem_insertIdSorted {x y : String} {l : List String} :
    y ∈ insertIdSorted x l ↔ y = x ∨ y ∈ l := by
  induction l with
  | nil => simp [insertIdSorted]
  | cons a as ih =>
    simp only [insertIdSorted]
    split
    · simp [List.mem_cons]
    · simp only [List.mem_cons, ih]
      tauto

/-- Sorting the master id list preserves membership. -/
theorem mem_sortIds {y : String} {l : List String} : y ∈ sortIds l ↔ y ∈ l := by
  induction l with
  | nil => simp [sortIds]
  | cons a as ih => simp [sortIds, mem_insertIdSorted, ih]

/-- Every key of a phase map after an insertion is the inserted key or an
existing key. -/
theorem insertName_keys {m : PhaseMap} {p n : String} {kv : String × List String}
    (h : kv ∈ insertName m p n) : kv.1 = p ∨ ∃ kv2 ∈ m, kv.1 = kv2.1 := by
  induction m with
  | nil =>
    simp only [insertName, List.mem_singleton] at h
    subst h; exact Or.inl rfl
  | cons a as ih =>
    simp only [insertName] at h
    split at h
    · rcases List.mem_cons.mp h with h2 | h2
      · subst h2; exact Or.inr ⟨a, List.mem_cons_self a as, rfl⟩
      · exact Or.inr ⟨kv, List.mem_cons_of_mem a h2, rfl⟩
    · rcases List.mem_cons.mp h with h2 | h2
      · subst h2; exact Or.inr ⟨a, List.mem_cons_self a as, rfl⟩
      · rcases ih h2 with h3 | ⟨kv2, hkv2, h3⟩
        · exact Or.inl h3
        · exact Or.inr ⟨kv2, List.mem_cons_of_mem a hkv2, h3⟩

/-- Every name of a phase map after an insertion is the inserted name or an
existing name. -/
theorem insertName_names {m : PhaseMap} {p n : String} {kv : String × List String}
    {x : String} (hkv : kv ∈ insertName m p n) (hx : x ∈ kv.2) :
    x = n ∨ ∃ kv2 ∈ m, x ∈ kv2.2 := by
  induction m with
  | nil =>
    simp only [insertName, List.mem_singleton] at hkv
    subst hkv
    simp only [List.mem_singleton] at hx
    exact Or.inl hx
  | cons a as ih =>
    simp only [insertName] at hkv
    split at hkv
    · rcases List.mem_cons.mp hkv with h2 | h2
      · subst h2
        simp only at hx
        split at hx
        · exact Or.inr ⟨a, List.mem_cons_self a as, hx⟩
        · rcases List.mem_append.mp hx with h3 | h3
          · exact Or.inr ⟨a, List.mem_cons_self a as, h3⟩
          · simp only [List.mem_singleton] at h3
            exact Or.inl h3
      · exact Or.inr ⟨kv, List.mem_cons_of_mem a h2, hx⟩
    · rcases List.mem_cons.mp hkv with h2 | h2
      · subst h2; exact Or.inr ⟨a, List.mem_cons_self a as, hx⟩
      · rcases ih h2 with h3 | ⟨kv2, hkv2, h3⟩
        · exact Or.inl h3
        · exact Or.inr ⟨kv2, List.mem_cons_of_mem a hkv2, h3⟩

/-- Assignment does not change keys other than possibly appending the new one. -/
theorem setKey_keys {m : UnitMap} {k : String} {v : List String} :
    (setKey m k v).map (·.1) = if k ∈ m.map (·.1) then m.map (·.1) else m.map (·.1) ++ [k] := by
  induction m with
  | nil => simp [setKey]
  | cons a as ih =>
    simp only [setKey]
    split
    · next heq => simp [heq]
    · next hne =>
      have : (k ∈ a.1 :: as.map (·.1)) ↔ (k ∈ as.map (·.1)) := by
        simp [List.mem_cons]
        intro h2; exact absurd h2.symm hne
      simp only [List.map_cons, ih]
      rw [if_congr this rfl rfl]
      split <;> simp

/-- Every value of a unit map after an assignment is the assigned value or an
existing value. -/
theorem setKey_values {m : UnitMap} {k : String} {v : List String}
    {kv : String × List String} (h : kv ∈ setKey m k v) : kv.2 = v ∨ kv ∈ m := by
  induction m with
  | nil =>
    simp only [setKey, List.mem_singleton] at h
    subst h; exact Or.inl rfl
  | cons a as ih =>
    simp only [setKey] at h
    split at h
    · rcases List.mem_cons.mp h with h2 | h2
      · subst h2; exact Or.inl rfl
      · exact Or.inr (List.mem_cons_of_mem a h2)
    · rcases List.mem_cons.mp h with h2 | h2
      · subst h2; exact Or.inr (List.mem_cons_self a as)
      · rcases ih h2 with h3 | h3
        · exact Or.inl h3
        · exact Or.inr (List.mem_cons_of_mem a h3)

/-- Appending a name to a key leaves the key sequence unchanged. -/
theorem appendName_keys {m : UnitMap} {k n : String} :
    (appendName m k n).map (·.1) = m.map (·.1) := by
  induction m with
  | nil => simp [appendName]
  | cons a as ih =>
    simp only [appendName]
    split <;> simp [ih]

/-- Every name of a unit map after an append is the appended name or an
existing name. -/
theorem appendName_names {m : UnitMap} {k n : String} {kv : String × List String}
    {x : String} (hkv : kv ∈ appendName m k n) (hx : x ∈ kv.2) :
    x = n ∨ ∃ kv2 ∈ m, x ∈ kv2.2 := by
  induction m with
  | nil => simp only [appendName] at hkv; cases hkv
  | cons a as ih =>
    simp only [appendName] at hkv
    split at hkv
    · rcases List.mem_cons.mp hkv with h2 | h2
      · subst h2
        rcases List.mem_append.mp hx with h3 | h3
        · exact Or.inr ⟨a, List.mem_cons_self a as, h3⟩
        · simp only [List.mem_singleton] at h3
          exact Or.inl h3
      · exact Or.inr ⟨kv, List.mem_cons_of_mem a h2, hx⟩
    · rcases List.mem_cons.mp hkv with h2 | h2
      · subst h2; exact Or.inr ⟨a, List.mem_cons_self a as, hx⟩
      · rcases ih h2 with h3 | ⟨kv2, hkv2, h3⟩
        · exact Or.inl h3
        · exact Or.inr ⟨kv2, List.mem_cons_of_mem a hkv2, h3⟩

/-- Every phase emitted by normalisation is canonical. -/
theorem normalizePhases_mem_GAME_PHASES {p x : String} (h : x ∈ normalizePhases p) :
    x ∈ GAME_PHASES := by
  unfold normalizePhases at h
  have h2 := List.of_mem_filter h
  simpa using h2

/-- Soundness package carried through the `_prepare_stratagems_phase` folds:
every collected id and every name in the map comes from a work item whose
stratagem passed the decorated lookup and the detachment filter, and every
map key is canonical. -/
def phaseAccOK (d : Dataset) (opts : RequestOptions) (unames uids : List String)
    (entries : List DSLink) (units : List Datasheet) (full0 : List String)
    (acc : PhaseMap × List String) : Prop :=
  (∀ id ∈ acc.2, id ∈ full0 ∨ ∃ e ∈ entries, ∃ full,
      getStratagemFull d opts e.stratagem_id (some entries) (some units) = some full ∧
      id = full.id ∧ detachmentRejected unames uids full = false) ∧
  (∀ kv ∈ acc.1, kv.1 ∈ GAME_PHASES ∧ ∀ x ∈ kv.2, ∃ e ∈ entries, ∃ full,
      getStratagemFull d opts e.stratagem_id (some entries) (some units) = some full ∧
      x = full.name ∧ detachmentRejected unames uids full = false)

/-- The accept path of the phase organisation preserves the soundness package. -/
theorem phaseEntryHit_inv {d : Dataset} {opts : RequestOptions} {unames uids : List String}
    {entries : List DSLink} {units : List Datasheet} {full0 : List String}
    {acc2 : PhaseMap × List String} {sp full : Stratagem} {e : DSLink} (he : e ∈ entries)
    (hfull : getStratagemFull d opts e.stratagem_id (some entries) (some units) = some full)
    (h2 : phaseAccOK d opts unames uids entries units full0 acc2) :
    phaseAccOK d opts unames uids entries units full0
      (phaseEntryHit unames uids units acc2 sp full) := by
  unfold phaseEntryHit
  split
  · exact h2
  · next hdet =>
    split
    · exact h2
    · have hdetF : detachmentRejected unames uids full = false := by
        revert hdet
        cases detachmentRejected unames uids full <;> simp
      constructor
      · intro id hid
        dsimp only at hid
        split at hid
        · exact h2.1 id hid
        · rcases List.mem_append.mp hid with h3 | h3
          · exact h2.1 id h3
          · simp only [List.mem_singleton] at h3
            exact Or.inr ⟨e, he, full, hfull, h3, hdetF⟩
      · refine foldlInv
          (P := fun m => ∀ kv ∈ m, kv.1 ∈ GAME_PHASES ∧ ∀ x ∈ kv.2, ∃ e2 ∈ entries,
            ∃ full2, getStratagemFull d opts e2.stratagem_id (some entries) (some units)
              = some full2 ∧ x = full2.name ∧ detachmentRejected unames uids full2 = false)
          _ (normalizePhases sp.phase) acc2.1 h2.2 ?_
        intro m p hp hM kv hkv
        constructor
        · rcases insertName_keys hkv with h3 | ⟨kv2, hkv2, h3⟩
          · rw [h3]; exact normalizePhases_mem_GAME_PHASES hp
          · rw [h3]; exact (hM kv2 hkv2).1
        · intro x hx
          rcases insertName_names hkv hx with h3 | ⟨kv2, hkv2, h3⟩
          · exact ⟨e, he, full, hfull, h3, hdetF⟩
          · exact (hM kv2 hkv2).2 x h3

/-- One step of the phase organisation preserves the soundness package. -/
theorem phaseEntryStep_inv {d : Dataset} {opts : RequestOptions} {unames uids : List String}
    {entries : List DSLink} {units : List Datasheet} {full0 : List String}
    {acc : PhaseMap × List String} {e : DSLink} (he : e ∈ entries)
    (hP : phaseAccOK d opts unames uids entries units full0 acc) :
    phaseAccOK d opts unames uids entries units full0
      (phaseEntryStep d opts unames uids entries units acc e) := by
  unfold phaseEntryStep
  refine foldlInv _ d.stratagems acc hP ?_
  intro acc2 sp _ h2
  split
  · cases hfull : getStratagemFull d opts e.stratagem_id (some entries) (some units) with
    | none => exact h2
    | some full => exact phaseEntryHit_inv he hfull h2
  · exact h2

/-- Attachment soundness for `prepareStratagemsPhase`: every id added to the
master list and every name placed in the per-force phase map belongs to a work
item whose stratagem survived the detachment filter against the roster-wide
detachment identifiers, and every phase key is canonical. -/
theorem prepareStratagemsPhase_sound (d : Dataset) (opts : RequestOptions)
    (roster : List RosterForce) (ignore : List String) (renown : Option String)
    (entries : List DSLink) (units : List Datasheet) (full0 : List String) :
    phaseAccOK d opts (userDetachmentNames d roster) (userDetachmentIds d roster)
      entries units full0
      (prepareStratagemsPhase d opts roster ignore renown entries units full0) := by
  unfold prepareStratagemsPhase
  refine foldlInv _ entries ([], full0) ?_ ?_
  · exact ⟨fun id h => Or.inl h, fun kv h => absurd h (List.not_mem_nil kv)⟩
  · intro acc e he hP
    split
    · split
      · exact phaseEntryStep_inv he hP
      · exact hP
    · exact hP

/-- Every value in the initial unit map is the empty list. -/
theorem initUnitsMap_values {opts : RequestOptions} {units : List Datasheet}
    {kv : String × List String} (h : kv ∈ initUnitsMap opts units) : kv.2 = [] := by
  have H : ∀ kv2 ∈ initUnitsMap opts units, kv2.2 = ([] : List String) := by
    unfold initUnitsMap
    exact foldlInv (P := fun (m : UnitMap) => ∀ kv2 ∈ m, kv2.2 = ([] : List String)) _ units []
      (fun kv2 h2 => absurd h2 (List.not_mem_nil kv2))
      (fun m u _ hM kv2 hkv2 => (setKey_values hkv2).elim id (hM kv2))
  exact H kv h

/-- Assignment makes the key present and keeps all present keys. -/
theorem setKey_key_mem {m : UnitMap} {k k2 : String} {v : List String}
    (h : k ∈ m.map (·.1) ∨ k = k2) : k ∈ (setKey m k2 v).map (·.1) := by
  rw [setKey_keys]
  split
  · next hin =>
    rcases h with h | h
    · exact h
    · rw [h]; exact hin
  · rcases h with h | h
    · exact List.mem_append.mpr (Or.inl h)
    · rw [h]; exact List.mem_append.mpr (Or.inr (List.mem_singleton.mpr rfl))

/-- Keys accumulated by the initial-map fold: present keys persist and every
processed display name becomes a key. -/
theorem setKeyFold_keys_mem (f : Datasheet → String) :
    ∀ (us : List Datasheet) (m : UnitMap) (k : String),
      (k ∈ m.map (·.1) ∨ ∃ u ∈ us, f u = k) →
      k ∈ (us.foldl (fun m2 u => setKey m2 (f u) []) m).map (·.1) := by
  intro us
  induction us with
  | nil =>
    intro m k h
    rcases h with h | ⟨u, hu, _⟩
    · exact h
    · cases hu
  | cons a as ih =>
    intro m k h
    refine ih (setKey m (f a) []) k ?_
    rcases h with h | ⟨u, hu, hk⟩
    · exact Or.inl (setKey_key_mem (Or.inl h))
    · rcases List.mem_cons.mp hu with h2 | h2
      · subst h2
        exact Or.inl (setKey_key_mem (Or.inr hk.symm))
      · exact Or.inr ⟨u, h2, hk⟩

/-- Every declared unit's display name is a key of the initial unit map. -/
theorem initUnitsMap_keys_superset {opts : RequestOptions} {units : List Datasheet}
    {u : Datasheet} (hu : u ∈ units) :
    displayUnitName opts units u ∈ (initUnitsMap opts units).map (·.1) := by
  unfold initUnitsMap
  exact setKeyFold_keys_mem _ units [] _ (Or.inr ⟨u, hu, rfl⟩)

/-- With pairwise-distinct display names, the initial-map fold appends exactly
one key per unit, in order. -/
theorem setKeyFold_keys_nodup (f : Datasheet → String) :
    ∀ (us : List Datasheet) (m : UnitMap), (us.map f).Nodup →
      (∀ u ∈ us, f u ∉ m.map (·.1)) →
      (us.foldl (fun m2 u => setKey m2 (f u) []) m).map (·.1) = m.map (·.1) ++ us.map f := by
  intro us
  induction us with
  | nil => intro m _ _; simp
  | cons a as ih =>
    intro m hnd hnotin
    have hfa : f a ∉ m.map (·.1) := hnotin a (List.mem_cons_self a as)
    have hkeys : (setKey m (f a) []).map (·.1) = m.map (·.1) ++ [f a] := by
      rw [setKey_keys, if_neg hfa]
    have hnd2 : (as.map f).Nodup := (List.nodup_cons.mp (by simpa using hnd)).2
    have hhead : f a ∉ as.map f := (List.nodup_cons.mp (by simpa using hnd)).1
    have hnotin2 : ∀ u ∈ as, f u ∉ (setKey m (f a) []).map (·.1) := by
      intro u hu
      rw [hkeys]
      intro hmem
      rcases List.mem_append.mp hmem with h2 | h2
      · exact hnotin u (List.mem_cons_of_mem a hu) h2
      · simp only [List.mem_singleton] at h2
        exact hhead (h2 ▸ List.mem_map_of_mem f hu)
    calc ((a :: as).foldl (fun m2 u => setKey m2 (f u) []) m).map (·.1)
        = (as.foldl (fun m2 u => setKey m2 (f u) []) (setKey m (f a) [])).map (·.1) := rfl
      _ = (setKey m (f a) []).map (·.1) ++ as.map f := ih _ hnd2 hnotin2
      _ = (m.map (·.1) ++ [f a]) ++ as.map f := by rw [hkeys]
      _ = m.map (·.1) ++ (a :: as).map f := by simp

/-- With pairwise-distinct display names the initial unit map has exactly one
key per declared unit, in declaration order. -/
theorem initUnitsMap_keys_nodup {opts : RequestOptions} {units : List Datasheet}
    (h : (units.map (displayUnitName opts units)).Nodup) :
    (initUnitsMap opts units).map (·.1) = units.map (displayUnitName opts units) := by
  unfold initUnitsMap
  have := setKeyFold_keys_nodup (displayUnitName opts units) units [] h (by intro u _ h2; cases h2)
  simpa using this

/-- Soundness package carried through the `_prepare_stratagems_units` folds:
ids and names come from detachment-accepted stratagems and the key sequence
stays that of the initial unit map. -/
def unitAccOK (d : Dataset) (opts : RequestOptions) (unames uids : List String)
    (entries : List DSLink) (units : List Datasheet) (full0 : List String)
    (acc : UnitMap × List String) : Prop :=
  (∀ id ∈ acc.2, id ∈ full0 ∨ ∃ e ∈ entries, ∃ full,
      getStratagemFull d opts e.stratagem_id none none = some full ∧
      id = full.id ∧ detachmentRejected unames uids full = false) ∧
  (acc.1.map (·.1) = (initUnitsMap opts units).map (·.1)) ∧
  (∀ kv ∈ acc.1, ∀ x ∈ kv.2, ∃ e ∈ entries, ∃ full,
      getStratagemFull d opts e.stratagem_id none none = some full ∧
      x = full.name ∧ detachmentRejected unames uids full = false)

/-- The accept path of the unit organisation preserves the soundness package. -/
theorem unitEntryHit_inv {d : Dataset} {opts : RequestOptions} {unames uids : List String}
    {entries : List DSLink} {units : List Datasheet} {full0 : List String}
    {acc2 : UnitMap × List String} {u : Datasheet} {full : Stratagem} {e : DSLink}
    (he : e ∈ entries)
    (hfull : getStratagemFull d opts e.stratagem_id none none = some full)
    (h2 : unitAccOK d opts unames uids entries units full0 acc2) :
    unitAccOK d opts unames uids entries units full0
      (unitEntryHit opts unames uids units acc2 u full) := by
  unfold unitEntryHit
  split
  · exact h2
  · next hdet =>
    have hdetF : detachmentRejected unames uids full = false := by
      revert hdet
      cases detachmentRejected unames uids full <;> simp
    split
    · refine ⟨?_, ?_, ?_⟩
      · intro id hid
        dsimp only at hid
        split at hid
        · exact h2.1 id hid
        · rcases List.mem_append.mp hid with h3 | h3
          · exact h2.1 id h3
          · simp only [List.mem_singleton] at h3
            exact Or.inr ⟨e, he, full, hfull, h3, hdetF⟩
      · dsimp only
        rw [appendName_keys]
        exact h2.2.1
      · intro kv hkv x hx
        rcases appendName_names hkv hx with h3 | ⟨kv2, hkv2, h3⟩
        · exact ⟨e, he, full, hfull, h3, hdetF⟩
        · exact h2.2.2 kv2 hkv2 x h3
    · exact h2

/-- One step of the unit organisation preserves the soundness package. -/
theorem unitEntryStep_inv {d : Dataset} {opts : RequestOptions} {unames uids : List String}
    {entries : List DSLink} {units : List Datasheet} {full0 : List String}
    {acc : UnitMap × List String} {e : DSLink} (he : e ∈ entries)
    (hP : unitAccOK d opts unames uids entries units full0 acc) :
    unitAccOK d opts unames uids entries units full0
      (unitEntryStep d opts unames uids units acc e) := by
  unfold unitEntryStep
  refine foldlInv _ units acc hP ?_
  intro acc2 u _ h2
  split
  · cases hfull : getStratagemFull d opts e.stratagem_id none none with
    | none => exact h2
    | some full => exact unitEntryHit_inv he hfull h2
  · exact h2

/-- Attachment soundness for `prepareStratagemsUnits`: the key sequence is that
of the initial unit map (one key per distinct display name), and every id and
name added comes from a work item whose stratagem survived the detachment
filter against the roster-wide detachment identifiers. -/
theorem prepareStratagemsUnits_sound (d : Dataset) (opts : RequestOptions)
    (roster : List RosterForce) (ignore : List String) (renown : Option String)
    (entries : List DSLink) (units : List Datasheet) (full0 : List String) :
    unitAccOK d opts (userDetachmentNames d roster) (userDetachmentIds d roster)
      entries units full0
      (prepareStratagemsUnits d opts roster ignore renown entries units full0) := by
  unfold prepareStratagemsUnits
  refine foldlInv _ entries (initUnitsMap opts units, full0) ?_ ?_
  · exact ⟨fun id h => Or.inl h, rfl, fun kv hkv x hx => by
      rw [initUnitsMap_values hkv] at hx; cases hx⟩
  · intro acc e he hP
    split
    · exact unitEntryStep_inv he hP
    · exact hP

/-- Value stored under a key of an insertion-ordered map. -/
def lookupKey (m : UnitMap) (k : String) : Option (List String) :=
  (m.find? (fun kv => decide (kv.1 = k))).map (·.2)

/-- A key that occurs in the key sequence has a stored value. -/
theorem lookupKey_of_mem_keys {m : UnitMap} {k : String} (h : k ∈ m.map (·.1)) :
    ∃ kv, kv ∈ m ∧ kv.1 = k ∧ lookupKey m k = some kv.2 := by
  induction m with
  | nil => cases h
  | cons a as ih =>
    by_cases hk : a.1 = k
    · exact ⟨a, List.mem_cons_self a as, hk, by simp [lookupKey, List.find?, hk]⟩
    · have h2 : k ∈ as.map (·.1) := by
        rcases List.mem_cons.mp h with h3 | h3
        · exact absurd h3.symm hk
        · exact h3
      rcases ih h2 with ⟨kv, hkv, hk2, hl⟩
      refine ⟨kv, List.mem_cons_of_mem a hkv, hk2, ?_⟩
      simpa [lookupKey, List.find?, hk] using hl

/-- Appending under a different key does not change a stored value. -/
theorem appendName_lookupKey_ne {m : UnitMap} {k2 k n : String} (h : k2 ≠ k) :
    lookupKey (appendName m k2 n) k = lookupKey m k := by
  induction m with
  | nil => simp [appendName]
  | cons a as ih =>
    simp only [appendName]
    split
    · next hk1 =>
      have : ¬(a.1 = k) := by rw [hk1]; exact h
      simp [lookupKey, List.find?, this]
    · by_cases hak : a.1 = k
      · simp [lookupKey, List.find?, hak]
      · simpa [lookupKey, List.find?, hak] using ih

/-- A unit targeted by no work item keeps its empty entry through the unit
organisation, provided the declared display names are pairwise distinct. -/
theorem prepareStratagemsUnits_untouched (d : Dataset) (opts : RequestOptions)
    (roster : List RosterForce) (ignore : List String) (renown : Option String)
    (entries : List DSLink) (units : List Datasheet) (full0 : List String)
    (u : Datasheet) (hu : u ∈ units)
    (hnd : (units.map (displayUnitName opts units)).Nodup)
    (hno : ∀ e ∈ entries, e.datasheet_id ≠ u.id) :
    lookupKey (prepareStratagemsUnits d opts roster ignore renown entries units full0).1
      (displayUnitName opts units u) = some [] := by
  unfold prepareStratagemsUnits
  have base : lookupKey (initUnitsMap opts units) (displayUnitName opts units u) = some [] := by
    rcases lookupKey_of_mem_keys (initUnitsMap_keys_superset hu) with ⟨kv, hkv, _, hl⟩
    rw [hl, initUnitsMap_values hkv]
  refine (foldlInv (P := fun (acc : UnitMap × List String) =>
      lookupKey acc.1 (displayUnitName opts units u) = some []) _ entries
      (initUnitsMap opts units, full0) base ?_)
  intro acc e he hP
  split
  · unfold unitEntryStep
    refine foldlInv (P := fun (acc2 : UnitMap × List String) =>
      lookupKey acc2.1 (displayUnitName opts units u) = some []) _ units acc hP ?_
    intro acc2 u2 hu2 h2
    split
    · next heq =>
      cases hfull : getStratagemFull d opts e.stratagem_id none none with
      | none => exact h2
      | some full =>
        show lookupKey (unitEntryHit opts (userDetachmentNames d roster)
          (userDetachmentIds d roster) units acc2 u2 full).1
          (displayUnitName opts units u) = some []
        unfold unitEntryHit
        split
        · exact h2
        · split
          case isTrue =>
            have hne : displayUnitName opts units u2 ≠ displayUnitName opts units u := by
              intro hdn
              have hinj := List.inj_on_of_nodup_map hnd hu2 hu hdn
              have heq2 : e.datasheet_id = u2.id := by simpa using heq
              exact hno e he (hinj ▸ heq2)
            show lookupKey (appendName acc2.1 (displayUnitName opts units u2) full.name)
              (displayUnitName opts units u) = some []
            rw [appendName_lookupKey_ne hne]
            exact h2
          case isFalse => exact h2
    · exact h2
  · exact hP

/-- Game-order index of a phase key (0 in the unreachable absent case). -/
def phaseKeyIdx (k : String) : Nat := (firstIdxOf GAME_PHASES k).getD 0

/-- A present string has a first index. -/
theorem firstIdxOf_isSome_of_mem {l : List String} {p : String} (h : p ∈ l) :
    ∃ i, firstIdxOf l p = some i := by
  induction l with
  | nil => cases h
  | cons a as ih =>
    by_cases hap : a = p
    · exact ⟨0, by simp [firstIdxOf, hap]⟩
    · have h2 : p ∈ as := by
        rcases List.mem_cons.mp h with h3 | h3
        · exact absurd h3.symm hap
        · exact h3
      rcases ih h2 with ⟨i, hi⟩
      exact ⟨i + 1, by simp [firstIdxOf, hap, hi]⟩

/-- Membership through sorted insertion by index. -/
theorem mem_insertByIdx {x z : Nat × (String × List String)}
    {l : List (Nat × (String × List String))} :
    z ∈ insertByIdx x l ↔ z = x ∨ z ∈ l := by
  induction l with
  | nil => simp [insertByIdx]
  | cons y ys ih =>
    simp only [insertByIdx]
    split
    · simp [List.mem_cons]
    · simp only [List.mem_cons, ih]
      tauto

/-- Sorted insertion preserves sortedness by index. -/
theorem insertByIdx_sorted {x : Nat × (String × List String)}
    {l : List (Nat × (String × List String))}
    (h : List.Pairwise (fun a b => a.1 ≤ b.1) l) :
    List.Pairwise (fun a b => a.1 ≤ b.1) (insertByIdx x l) := by
  induction l with
  | nil => simp [insertByIdx]
  | cons y ys ih =>
    simp only [insertByIdx]
    split
    · next hlt =>
      have hxy : x.1 ≤ y.1 := Nat.le_of_lt (by simpa using hlt)
      refine List.Pairwise.cons ?_ h
      intro z hz
      rcases List.mem_cons.mp hz with h2 | h2
      · rw [h2]; exact hxy
      · exact le_trans hxy ((List.pairwise_cons.mp h).1 z h2)
    · next hge =>
      have hyx : y.1 ≤ x.1 := Nat.le_of_not_lt (by simpa using hge)
      have h2 := List.pairwise_cons.mp h
      refine List.Pairwise.cons ?_ (ih h2.2)
      intro z hz
      rcases mem_insertByIdx.mp hz with h3 | h3
      · rw [h3]; exact hyx
      · exact h2.1 z h3

/-- The insertion sort by index sorts. -/
theorem sortByIdx_sorted (l : List (Nat × (String × List String))) :
    List.Pairwise (fun a b => a.1 ≤ b.1) (sortByIdx l) := by
  induction l with
  | nil => exact List.Pairwise.nil
  | cons x xs ih => exact insertByIdx_sorted ih

/-- Membership through the insertion sort by index. -/
theorem mem_sortByIdx {z : Nat × (String × List String)}
    {l : List (Nat × (String × List String))} : z ∈ sortByIdx l ↔ z ∈ l := by
  induction l with
  | nil => simp [sortByIdx]
  | cons x xs ih => simp [sortByIdx, mem_insertByIdx, ih]

/-- Tagging succeeds exactly when every key is canonical. -/
theorem tagPhaseIdx_ok_of_keys {m : PhaseMap} (h : ∀ kv ∈ m, kv.1 ∈ GAME_PHASES) :
    ∃ t, tagPhaseIdx m = .ok t := by
  induction m with
  | nil => exact ⟨[], rfl⟩
  | cons kv rest ih =>
    rcases firstIdxOf_isSome_of_mem (h kv (List.mem_cons_self kv rest)) with ⟨i, hi⟩
    rcases ih (fun kv2 h2 => h kv2 (List.mem_cons_of_mem kv h2)) with ⟨t, ht⟩
    exact ⟨(i, kv) :: t, by simp [tagPhaseIdx, hi, ht]⟩

/-- Every tagged pair records the first index of its key. -/
theorem tagPhaseIdx_elem {m : PhaseMap} {t : List (Nat × (String × List String))}
    (h : tagPhaseIdx m = .ok t) :
    ∀ z ∈ t, firstIdxOf GAME_PHASES z.2.1 = some z.1 := by
  induction m generalizing t with
  | nil =>
    simp only [tagPhaseIdx] at h
    cases h
    intro z hz; cases hz
  | cons kv rest ih =>
    simp only [tagPhaseIdx] at h
    cases hi : firstIdxOf GAME_PHASES kv.1 with
    | none => rw [hi] at h; cases h
    | some i =>
      rw [hi] at h
      cases ht : tagPhaseIdx rest with
      | error e => rw [ht] at h; cases h
      | ok t2 =>
        rw [ht] at h
        cases h
        intro z hz
        rcases List.mem_cons.mp hz with h2 | h2
        · rw [h2]; exact hi
        · exact ih ht z h2

/-- Sorting a phase map succeeds when every key is canonical. -/
theorem sortPhaseElem_ok_of_keys {m : PhaseMap} (h : ∀ kv ∈ m, kv.1 ∈ GAME_PHASES) :
    ∃ r, sortPhaseElem m = .ok r := by
  rcases tagPhaseIdx_ok_of_keys h with ⟨t, ht⟩
  exact ⟨(sortByIdx t).map (·.2), by simp [sortPhaseElem, ht]⟩

/-- Any successfully sorted phase map is ordered by canonical phase index. -/
theorem sortPhaseElem_sorted {m r : PhaseMap} (h : sortPhaseElem m = .ok r) :
    List.Pairwise (fun a b => phaseKeyIdx a.1 ≤ phaseKeyIdx b.1) r := by
  unfold sortPhaseElem at h
  cases ht : tagPhaseIdx m with
  | error e => rw [ht] at h; cases h
  | ok t =>
    rw [ht] at h
    cases h
    have hs := sortByIdx_sorted t
    rw [List.pairwise_map]
    refine hs.imp_of_mem ?_
    intro a b ha hb hab
    have ha2 := tagPhaseIdx_elem ht a (mem_sortByIdx.mp ha)
    have hb2 := tagPhaseIdx_elem ht b (mem_sortByIdx.mp hb)
    unfold phaseKeyIdx
    rw [ha2, hb2]
    exact hab

/-- Each per-force map of a successful global sort is a successfully sorted
image of the corresponding input map. -/
theorem sortPhasesByGameOrder_elems {ms rs : List PhaseMap}
    (h : sortPhasesByGameOrder ms = .ok rs) :
    ∀ r ∈ rs, ∃ m ∈ ms, sortPhaseElem m = .ok r := by
  induction ms generalizing rs with
  | nil =>
    simp only [sortPhasesByGameOrder] at h
    cases h
    intro r hr; cases hr
  | cons m rest ih =>
    simp only [sortPhasesByGameOrder] at h
    cases hm : sortPhaseElem m with
    | error e => rw [hm] at h; cases h
    | ok m2 =>
      rw [hm] at h
      cases hrest : sortPhasesByGameOrder rest with
      | error e => rw [hrest] at h; cases h
      | ok r2 =>
        rw [hrest] at h
        cases h
        intro r hr
        rcases List.mem_cons.mp hr with h2 | h2
        · exact ⟨m, List.mem_cons_self m rest, h2 ▸ hm⟩
        · rcases ih hrest r h2 with ⟨m3, hm3, h3⟩
          exact ⟨m3, List.mem_cons_of_mem m hm3, h3⟩

/-- Closed form of initialisation: the canonical post-initialisation state. -/
theorem initializeParsing_eq (d : Dataset) (opts : RequestOptions) (refreshDb : Bool)
    (s : ParseState) :
    initializeParsing d opts refreshDb s =
      ⟨opts,
       (if refreshDb then
          findEmptyStratagems d s.requestOptions s.ignorePhasesList s.currentArmyOfRenown
        else s.emptyStratagemsList),
       (if decide (opts.dont_show_before = "on") then ["Before battle"] else []),
       none, []⟩ := by
  unfold initializeParsing cleanListState
  cases refreshDb <;> cases hb : decide (opts.dont_show_before = "on") <;>
    simp only [hb, if_true, if_false, Bool.false_eq_true, ite_true, ite_false] <;> rfl

/-- Inversion of a successful `parseAfterInit` run. -/
theorem parseAfterInit_ok_inv {d : Dataset} {roster : List RosterForce}
    {opts : RequestOptions} {s : ParseState} {r : PipelineResult} {sF : ParseState}
    (h : parseAfterInit d roster opts s = .ok (r, sF)) :
    ∃ renownData sortedPhases,
      (if decide (opts.dont_show_renown ≠ "on") then findArmyOfRenown roster
       else .ok []) = .ok renownData ∧
      sortPhasesByGameOrder (pipelineForces d roster opts s renownData).1 = .ok sortedPhases ∧
      r = ⟨sortedPhases, (pipelineForces d roster opts s renownData).2.1,
           sortIds (pipelineForces d roster opts s renownData).2.2.2⟩ ∧
      sF = { s with currentArmyOfRenown := (pipelineForces d roster opts s renownData).2.2.1,
                    fullStratagemsList := (pipelineForces d roster opts s renownData).2.2.2 } := by
  unfold parseAfterInit at h
  cases hr : (if decide (opts.dont_show_renown ≠ "on") then findArmyOfRenown roster
              else .ok ([] : List (Option String))) with
  | error e => rw [hr] at h; cases h
  | ok renownData =>
    rw [hr] at h
    dsimp only at h
    cases hs : sortPhasesByGameOrder (pipelineForces d roster opts s renownData).1 with
    | error e => rw [hs] at h; cases h
    | ok sortedPhases =>
      rw [hs] at h
      have h2 := Except.ok.inj h
      exact ⟨renownData, sortedPhases, by simp [hr], by simp [hs],
        (congrArg Prod.fst h2).symm, (congrArg Prod.snd h2).symm⟩

/-- A work item surviving the core filter with a non-empty id resolves to a
non-core type. -/
theorem filterOutCore_spec {d : Dataset} {opts : RequestOptions} {entries : List DSLink}
    {e : DSLink} (h : e ∈ filterOutCoreStratagems d opts entries) :
    e ∈ entries ∧ (e.stratagem_id = "" ∨
      ∀ full, getStratagemFull d opts e.stratagem_id none none = some full →
        strContains (pyLower full.type) "core" = false) := by
  unfold filterOutCoreStratagems at h
  have hm := List.mem_filter.mp h
  refine ⟨hm.1, ?_⟩
  by_cases hid : e.stratagem_id = ""
  · exact Or.inl hid
  · right
    intro full hfull
    have hp := hm.2
    rw [hfull] at hp
    simpa [hid] using hp

/-- The decorated lookup succeeds whenever the raw lookup does. -/
theorem getStratagemFull_isSome_of_lookup {d : Dataset} {opts : RequestOptions}
    {sid : String} {s : Stratagem} (h : lookupStratagem d.stratagems sid = some s)
    (eo : Option (List DSLink)) (uo : Option (List Datasheet)) :
    ∃ full, getStratagemFull d opts sid eo uo = some full := by
  unfold getStratagemFull
  rw [h]
  dsimp only
  split
  · exact ⟨_, rfl⟩
  · split
    · exact ⟨_, rfl⟩
    · exact ⟨_, rfl⟩

/-- With core display off, the conditional removal is the core filter. -/
theorem maybeFilterOutCore_off {d : Dataset} {opts : RequestOptions}
    (hoff : opts.show_core ≠ "on") (entries : List DSLink) :
    maybeFilterOutCore d opts entries = filterOutCoreStratagems d opts entries := by
  unfold maybeFilterOutCore
  exact if_pos (by simpa using hoff)

/-- A work item that survived the core filter and whose decorated lookup
succeeds resolves (by id) to a non-core type, given non-empty stratagem ids. -/
theorem filterOutCore_noncore {d : Dataset} {opts : RequestOptions}
    {entries0 : List DSLink} {e : DSLink} {eo : Option (List DSLink)}
    {uo : Option (List Datasheet)} {full : Stratagem}
    (hids : ∀ s ∈ d.stratagems, s.id ≠ "")
    (he : e ∈ filterOutCoreStratagems d opts entries0)
    (hfull : getStratagemFull d opts e.stratagem_id eo uo = some full) :
    ∀ s, lookupStratagem d.stratagems full.id = some s →
      strContains (pyLower s.type) "core" = false := by
  intro s hs
  rcases getStratagemFull_fields hfull with ⟨s2, hs2, hid2, _, _, _, _⟩
  rcases lookupStratagem_spec hs2 with ⟨hmem2, hsid2⟩
  have hfid : full.id = e.stratagem_id := by rw [hid2, hsid2]
  have hne : e.stratagem_id ≠ "" := fun hz => hids s2 hmem2 (hsid2.trans hz)
  rcases (filterOutCore_spec he).2 with hz | hnc
  · exact absurd hz hne
  · rcases @getStratagemFull_isSome_of_lookup _ opts _ _ hs2 none none with ⟨full2, hfull2⟩
    have hnc2 := hnc full2 hfull2
    rcases getStratagemFull_fields hfull2 with ⟨s3, hs3, _, htype3, _, _, _⟩
    rw [hfid, hs2] at hs
    rw [hs2] at hs3
    have h1 : s2 = s := Option.some.inj hs
    have h2 : s2 = s3 := Option.some.inj hs3
    rw [← h1, h2, ← htype3]
    exact hnc2

/-- With core display off and non-empty stratagem ids, every id collected by
the force loop beyond the incoming master list resolves to a non-core type. -/
theorem processForcesGo_core_free {d : Dataset} {opts : RequestOptions}
    {roster : List RosterForce} {ignore : List String} {emptyData : List (List DSLink)}
    {renownData : List (Option String)} {core : List DSLink}
    {unitSpecific : List (List DSLink)} {units : List (List Datasheet)}
    (hoff : opts.show_core ≠ "on") (hids : ∀ s ∈ d.stratagems, s.id ≠ "") :
    ∀ (factions : List (Option Faction)) (i : Nat) (renown : Option String)
      (full : List String),
      ∀ id ∈ (processForcesGo d opts roster ignore emptyData renownData core unitSpecific
        units factions i renown full).2.2.2,
      id ∈ full ∨ ∀ s, lookupStratagem d.stratagems id = some s →
        strContains (pyLower s.type) "core" = false := by
  intro factions
  induction factions with
  | nil => intro i renown full id h; exact Or.inl h
  | cons f0 rest ih =>
    intro i renown full id hid
    simp only [processForcesGo] at hid
    rw [maybeFilterOutCore_off hoff] at hid
    rcases ih _ _ _ id hid with h | h
    · rcases (prepareStratagemsUnits_sound d opts roster ignore _ _ _ _).1
          id h with h2 | ⟨e, he, fullS, hfullS, hideq, _⟩
      · rcases (prepareStratagemsPhase_sound d opts roster ignore _ _ _ full).1
            id h2 with h3 | ⟨e, he, fullS, hfullS, hideq, _⟩
        · exact Or.inl h3
        · exact Or.inr (hideq ▸ filterOutCore_noncore hids he hfullS)
      · exact Or.inr (hideq ▸ filterOutCore_noncore hids he hfullS)
    · exact Or.inr h

/-- Every phase key produced by the force loop is canonical. -/
theorem processForcesGo_phase_keys {d : Dataset} {opts : RequestOptions}
    {roster : List RosterForce} {ignore : List String} {emptyData : List (List DSLink)}
    {renownData : List (Option String)} {core : List DSLink}
    {unitSpecific : List (List DSLink)} {units : List (List Datasheet)} :
    ∀ (factions : List (Option Faction)) (i : Nat) (renown : Option String)
      (full : List String),
      ∀ m ∈ (processForcesGo d opts roster ignore emptyData renownData core unitSpecific
        units factions i renown full).1,
      ∀ kv ∈ m, kv.1 ∈ GAME_PHASES := by
  intro factions
  induction factions with
  | nil => intro i renown full m hm; cases hm
  | cons f0 rest ih =>
    intro i renown full m hm
    simp only [processForcesGo] at hm
    rcases List.mem_cons.mp hm with h | h
    · intro kv hkv
      subst h
      exact ((prepareStratagemsPhase_sound d opts roster ignore _ _ _ _).2 kv hkv).1
    · exact ih _ _ _ m h

/-- Sorting the per-force phase maps succeeds when every key is canonical. -/
theorem sortPhasesByGameOrder_ok_of_keys {ms : List PhaseMap}
    (h : ∀ m ∈ ms, ∀ kv ∈ m, kv.1 ∈ GAME_PHASES) :
    ∃ rs, sortPhasesByGameOrder ms = .ok rs := by
  induction ms with
  | nil => exact ⟨[], rfl⟩
  | cons m rest ih =>
    rcases sortPhaseElem_ok_of_keys (h m (List.mem_cons_self m rest)) with ⟨r, hr⟩
    rcases ih (fun m2 h2 => h m2 (List.mem_cons_of_mem m h2)) with ⟨rs, hrs⟩
    exact ⟨r :: rs, by simp [sortPhasesByGameOrder, hr, hrs]⟩

/-- Boolean conjunction characterisation. -/
theorem bool_and_true {a b : Bool} : (a && b) = true ↔ a = true ∧ b = true := by
  cases a <;> cases b <;> simp


/-! ## Claim theorems -/

/-- C1: for every stratagem rule (looked up by id) and every force context
(options, phase-ignore list, detected army-of-renown), `_stratagem_is_valid`
accepts the rule if and only if: its type contains no string from the fixed
invalid-type blocklist; and either the special-army-variant force-include fires
(the user has not suppressed special-army display, the detected variant name is
set and non-empty, and it occurs in the rule's type - short-circuiting the
remaining checks), or otherwise (the rejection applying under the same
not-suppressed policy gate) the type contains no known variant name from the
fixed variant list, the rule's phase is not in the active phase-ignore list,
and the type is not the literal "Stratagem" and contains a string from the
fixed valid-type allowlist. -/
theorem C1_stratagem_validity (d : Dataset) (opts : RequestOptions)
    (ignore : List String) (renown : Option String) (sid : String) :
    stratagemIsValid d opts ignore renown sid = true ↔
      ∃ s, lookupStratagem d.stratagems sid = some s ∧
        (∀ t ∈ INVALID_STRATAGEM_TYPES, ¬ strContains s.type t = true) ∧
        ((opts.dont_show_renown ≠ "on" ∧
            ∃ v, renown = some v ∧ v ≠ "" ∧ strContains s.type v = true) ∨
          ((opts.dont_show_renown ≠ "on" →
              ∀ a ∈ ARMY_OF_RENOWN_LIST, ¬ strContains s.type a = true) ∧
           (∀ p, getStratagemPhase d sid = some p → p ∉ ignore) ∧
           s.type ≠ "Stratagem" ∧
           ∃ t ∈ VALID_STRATAGEM_TYPES, strContains s.type t = true)) := by
  unfold stratagemIsValid
  cases hl : lookupStratagem d.stratagems sid with
  | none => simp
  | some s =>
    have hphp : getStratagemPhase d sid = some s.phase := by
      unfold getStratagemPhase
      rw [hl]
      rfl
    rw [hphp]
    simp only [Option.some.injEq, exists_eq_left']
    have hren : renownHit renown s.type = true ↔
        ∃ v, renown = some v ∧ v ≠ "" ∧ strContains s.type v = true := by
      cases renown with
      | none => simp [renownHit]
      | some v =>
        rw [show renownHit (some v) s.type =
          (decide (v ≠ "") && strContains s.type v) from rfl, bool_and_true]
        constructor
        · rintro ⟨ha, hb⟩
          exact ⟨v, rfl, by simpa using ha, hb⟩
        · rintro ⟨v3, hv3, h3, h4⟩
          cases hv3
          exact ⟨decide_eq_true h3, h4⟩
    constructor
    · intro h
      by_cases h1 : (INVALID_STRATAGEM_TYPES.any fun t => strContains s.type t) = true
      · rw [if_pos h1] at h; cases h
      · rw [if_neg h1] at h
        have hinv : ∀ t ∈ INVALID_STRATAGEM_TYPES, ¬ strContains s.type t = true := by
          intro t ht hc
          exact h1 (List.any_eq_true.mpr ⟨t, ht, hc⟩)
        refine ⟨hinv, ?_⟩
        by_cases h2 : (decide (opts.dont_show_renown ≠ "on") &&
            renownHit renown s.type) = true
        · left
          rcases bool_and_true.mp h2 with ⟨h2a, h2b⟩
          exact ⟨by simpa using h2a, hren.mp h2b⟩
        · rw [if_neg h2] at h
          right
          by_cases h3 : (decide (opts.dont_show_renown ≠ "on") &&
              ARMY_OF_RENOWN_LIST.any fun t => strContains s.type t) = true
          · rw [if_pos h3] at h; cases h
          · rw [if_neg h3] at h
            have harmy : opts.dont_show_renown ≠ "on" → ∀ a ∈ ARMY_OF_RENOWN_LIST,
                ¬ strContains s.type a = true := by
              intro hd a ha hc
              exact h3 (bool_and_true.mpr
                ⟨decide_eq_true hd, List.any_eq_true.mpr ⟨a, ha, hc⟩⟩)
            by_cases h4 : decide (s.phase ∈ ignore) = true
            · rw [if_pos h4] at h; cases h
            · rw [if_neg h4] at h
              have hph : ∀ p, s.phase = p → p ∉ ignore := by
                intro p hp hmem
                exact h4 (by rw [hp]; exact decide_eq_true hmem)
              rcases bool_and_true.mp h with ⟨h5, h6⟩
              exact ⟨harmy, hph, by simpa using h5, List.any_eq_true.mp h6⟩
    · rintro ⟨hinv, hrest⟩
      have h1 : ¬ (INVALID_STRATAGEM_TYPES.any fun t => strContains s.type t) = true := by
        intro hc
        rcases List.any_eq_true.mp hc with ⟨t, ht, hc2⟩
        exact hinv t ht hc2
      rw [if_neg h1]
      rcases hrest with ⟨hd, hex⟩ | ⟨harmy, hph, hts, t, ht, htc⟩
      · have h2 : (decide (opts.dont_show_renown ≠ "on") &&
            renownHit renown s.type) = true :=
          bool_and_true.mpr ⟨decide_eq_true hd, hren.mpr hex⟩
        rw [if_pos h2]
      · by_cases h2 : (decide (opts.dont_show_renown ≠ "on") &&
            renownHit renown s.type) = true
        · rw [if_pos h2]
        · rw [if_neg h2]
          have h3 : ¬ (decide (opts.dont_show_renown ≠ "on") &&
              ARMY_OF_RENOWN_LIST.any fun t2 => strContains s.type t2) = true := by
            intro hc
            rcases bool_and_true.mp hc with ⟨h3a, h3b⟩
            rcases List.any_eq_true.mp h3b with ⟨a, ha, hac⟩
            exact harmy (by simpa using h3a) a ha hac
          rw [if_neg h3]
          have h4 : ¬ decide (s.phase ∈ ignore) = true := by
            intro hc
            exact hph s.phase rfl (of_decide_eq_true hc)
          rw [if_neg h4]
          exact bool_and_true.mpr ⟨decide_eq_true hts, List.any_eq_true.mpr ⟨t, ht, htc⟩⟩

/-- The empty reference dataset. -/
def emptyDataset : Dataset := ⟨[], [], [], [], []⟩

/-- A one-force roster whose force element has no selections key. -/
def rosterNoSelections : List RosterForce := [⟨"Unknown Army", none⟩]

/-- A one-force roster with a present but empty selection list. -/
def rosterEmptySelections : List RosterForce := [⟨"Unknown Army", some []⟩]

/-- Two distinct datasheets sharing the same unit name. -/
def dsTwinA : Datasheet := ⟨"u1", "X", "SM", []⟩

/-- Second datasheet with the duplicated name. -/
def dsTwinB : Datasheet := ⟨"u2", "X", "SM", []⟩

/-- C2: the spec (and this claim) requires a valid rule with no
UnitStratagemLink row, empty subfaction id and a faction id matching the
force's resolved faction to appear in the report exactly when `show_empty` is
on. The code collects such rules into the empty bucket, but
`_prepare_stratagems_phase` then drops every work item whose (datasheet id,
stratagem id) pair has no link row - which holds vacuously for all empty-bucket
items - and `_prepare_stratagems_units` only attaches items whose datasheet id
equals a unit id, so the rule reaches no part of the returned report even with
`show_empty` on: the inclusion machinery is dead code and the claim's
"included" half fails on the code. -/
theorem C2_empty_rule_dropped :
    filterEmptyStratagems (findEmptyStratagems dsetEmptyRule {} [] none) [some smFaction]
        = [[⟨"", "R1"⟩]] ∧
    reportExcludesB (parseBattlescribe dsetEmptyRule rosterSM { show_empty := "on" } true state0)
        stratHold = true ∧
    reportExcludesB (parseBattlescribe dsetEmptyRule rosterSM { show_empty := "off" } true state0)
        stratHold = true := by
  refine ⟨?_, ?_, ?_⟩ <;> decide

/-- C5 counterexample: a phase string whose (trimmed) segment is not in the
canonical vocabulary is neither rejected nor traced - normalisation silently
returns the empty list, and in a disjunction the unrecognised segment silently
vanishes while the recognised one is kept. -/
theorem C5_counterexample :
    normalizePhases "Jabberwocky phase" = [] ∧
    normalizePhases "Jabberwocky phase or Command phase" = ["Command phase"] := by
  exact ⟨by decide, by decide⟩

/-- C5 (amended): normalisation splits on the literal `" or "`, trims each
segment, and returns exactly the segments of the canonical phase vocabulary;
a segment that after trimming is not in the vocabulary is silently dropped
(the function is total, with no rejection or logging channel). -/
theorem C5_phase_normalization (p x : String) :
    (x ∈ normalizePhases p ↔
      x ∈ (pySplit p " or ").map pyStrip ∧ x ∈ GAME_PHASES) ∧
    (x ∈ (pySplit p " or ").map pyStrip → x ∉ GAME_PHASES → x ∉ normalizePhases p) := by
  constructor
  · unfold normalizePhases
    rw [List.mem_filter]
    simp
  · intro _ hng hmem
    exact hng (normalizePhases_mem_GAME_PHASES hmem)

/-- C5 witness: the unrecognised segment of a concrete disjunction is dropped. -/
theorem C5_phase_normalization_witness :
    "Jabberwocky phase" ∉ normalizePhases "Jabberwocky phase or Command phase" :=
  (C5_phase_normalization "Jabberwocky phase or Command phase" "Jabberwocky phase").2
    (by decide) (by decide)

/-- C8: the claim (and spec) requires unresolvable forces to degrade gracefully
without raising. `_find_faction` and `_find_units` do degrade (conjuncts three
to five), but `_find_army_of_renown` indexes `roster_elem["selections"]`
unguarded, so a force element without a selections key raises a `KeyError`
(modelled as `Except.error`) whenever the army-of-renown scan runs (it runs
unless `dont_show_renown` is on), and the whole parse raises with it - the
claim's "processing does not raise" fails on the code, while the same roster
with an present-but-empty selection list is processed to an all-empty report. -/
theorem C8_missing_selections_raises :
    findArmyOfRenown rosterNoSelections = .error "KeyError: selections" ∧
    parseBattlescribe emptyDataset rosterNoSelections {} false state0
        = .error "KeyError: selections" ∧
    findFaction emptyDataset rosterNoSelections = [none] ∧
    findUnits emptyDataset (findFaction emptyDataset rosterNoSelections) rosterNoSelections
        = [[]] ∧
    parseBattlescribe emptyDataset rosterEmptySelections {} false state0
        = .ok (⟨[[]], [[]], []⟩, state0) := by
  refine ⟨?_, ?_, ?_, ?_, ?_⟩ <;> decide

/-- C7 counterexample: two distinct declared units sharing a display name
(unit-indexed view off) collapse to a single key of the unit map, so the map
does not contain one key per declared unit. -/
theorem C7_counterexample :
    (prepareStratagemsUnits emptyDataset {} [] [] none [] [dsTwinA, dsTwinB] []).1
        = [("X", [])] ∧
    [dsTwinA, dsTwinB].length = 2 ∧ dsTwinA ≠ dsTwinB := by
  refine ⟨?_, ?_, ?_⟩ <;> decide

/-- C3 counterexample: in a two-force roster, force 0 resolves "Gladius Task
Force" and force 1 resolves "Anvil Siege Force"; the rule scoped to "Anvil
Siege Force" fails the detachment filter against force 0's own resolved
identifiers, yet it is attached to force 0's phase output, because the code
matches against the union of every force's detachments. -/
theorem C3_counterexample :
    findDetachment dsetAnvilLinked [forceGladius, forceAnvil]
        = [some "Gladius Task Force", some "Anvil Siege Force"] ∧
    detachmentRejected (userDetachmentNames dsetAnvilLinked [forceGladius])
        (userDetachmentIds dsetAnvilLinked [forceGladius]) stratAnvil = true ∧
    reportHasPhaseNameB
        (parseBattlescribe dsetAnvilLinked [forceGladius, forceAnvil] {} false state0)
        0 "ANVIL RULE" = true := by
  refine ⟨?_, ?_, ?_⟩ <;> decide

/-- C7 (amended): for every input, the unit map of `_prepare_stratagems_units`
has exactly the key sequence of the initial map - one key per distinct display
name of a declared unit, in declaration order - and every declared unit's
display name is present as a key; when the declared display names are pairwise
distinct (in particular under the unit-indexed view, whose 1-based position
tag separates distinct units) the map has exactly one key per declared unit;
and a declared unit targeted by no work item keeps its entry with the empty
list - "no rules" is a representable terminal state, not an error. Duplicate
display names (possible with the unit-indexed view off) share one key, which
is the correction the counterexample forces. -/
theorem C7_unit_coverage (d : Dataset) (opts : RequestOptions) (roster : List RosterForce)
    (ignore : List String) (renown : Option String) (entries : List DSLink)
    (units : List Datasheet) (full0 : List String) :
    ((prepareStratagemsUnits d opts roster ignore renown entries units full0).1.map (·.1)
        = (initUnitsMap opts units).map (·.1)) ∧
    (∀ u ∈ units, displayUnitName opts units u ∈
        (prepareStratagemsUnits d opts roster ignore renown entries units full0).1.map (·.1)) ∧
    ((units.map (displayUnitName opts units)).Nodup →
      (prepareStratagemsUnits d opts roster ignore renown entries units full0).1.map (·.1)
        = units.map (displayUnitName opts units)) ∧
    (∀ u ∈ units, (units.map (displayUnitName opts units)).Nodup →
      (∀ e ∈ entries, e.datasheet_id ≠ u.id) →
      lookupKey (prepareStratagemsUnits d opts roster ignore renown entries units full0).1
        (displayUnitName opts units u) = some []) := by
  have hkeys := (prepareStratagemsUnits_sound d opts roster ignore renown entries units full0).2.1
  refine ⟨hkeys, ?_, ?_, ?_⟩
  · intro u hu
    rw [hkeys]
    exact initUnitsMap_keys_superset hu
  · intro hnd
    rw [hkeys]
    exact initUnitsMap_keys_nodup hnd
  · intro u hu hnd hno
    exact prepareStratagemsUnits_untouched d opts roster ignore renown entries units full0
      u hu hnd hno

/-- C7 witness: a declared unit with no work items keeps its empty entry. -/
theorem C7_unit_coverage_witness :
    lookupKey (prepareStratagemsUnits emptyDataset {} [] [] none [] [dsIntercessor] []).1
      (displayUnitName {} [dsIntercessor] dsIntercessor) = some [] :=
  (C7_unit_coverage emptyDataset {} [] [] none [] [dsIntercessor] []).2.2.2 dsIntercessor
    (by decide) (by decide) (by decide)

/-- C3 (amended): a rule is attached to a force's phase or unit output only if
it passes the detachment filter against the roster's resolved detachment
identifiers - the union, by name and by mapped id, over all forces of the
roster (the code re-runs `_find_detachment` over every force, which is the
correction the counterexample forces; the claim said "the force's"
identifiers); a rule with both detachment fields empty always passes the
filter; and in the single-force scenario resolving "Gladius Task Force", the
"Gladius Task Force"-scoped rule and the generic rule are in the report while
the "Anvil Siege Force"-scoped rule is absent, for every combination of the
`show_empty` and `show_core` flags. -/
theorem C3_detachment_scoping :
    (∀ (d : Dataset) (opts : RequestOptions) (roster : List RosterForce)
       (ignore : List String) (renown : Option String) (entries : List DSLink)
       (units : List Datasheet) (full0 : List String) (kv : String × List String)
       (x : String),
      kv ∈ (prepareStratagemsPhase d opts roster ignore renown entries units full0).1 →
      x ∈ kv.2 →
      ∃ e ∈ entries, ∃ full,
        getStratagemFull d opts e.stratagem_id (some entries) (some units) = some full ∧
        x = full.name ∧
        detachmentRejected (userDetachmentNames d roster) (userDetachmentIds d roster) full
          = false) ∧
    (∀ (d : Dataset) (opts : RequestOptions) (roster : List RosterForce)
       (ignore : List String) (renown : Option String) (entries : List DSLink)
       (units : List Datasheet) (full0 : List String) (kv : String × List String)
       (x : String),
      kv ∈ (prepareStratagemsUnits d opts roster ignore renown entries units full0).1 →
      x ∈ kv.2 →
      ∃ e ∈ entries, ∃ full,
        getStratagemFull d opts e.stratagem_id none none = some full ∧
        x = full.name ∧
        detachmentRejected (userDetachmentNames d roster) (userDetachmentIds d roster) full
          = false) ∧
    (∀ (unames uids : List String) (s : Stratagem),
      pyStrip (pyLower s.detachment) = "" → pyStrip s.detachment_id = "" →
      detachmentRejected unames uids s = false) ∧
    (∀ b c : Bool,
      reportHasPhaseNameB
        (parseBattlescribe dsetDetachments [forceGladius] (optsEmptyCore b c) false state0)
        0 "GLADIUS RULE" = true ∧
      reportHasPhaseNameB
        (parseBattlescribe dsetDetachments [forceGladius] (optsEmptyCore b c) false state0)
        0 "GENERIC RULE" = true ∧
      reportExcludesB
        (parseBattlescribe dsetDetachments [forceGladius] (optsEmptyCore b c) false state0)
        stratAnvil = true) := by
  refine ⟨?_, ?_, ?_, ?_⟩
  · intro d opts roster ignore renown entries units full0 kv x hkv hx
    exact ((prepareStratagemsPhase_sound d opts roster ignore renown entries units full0).2
      kv hkv).2 x hx
  · intro d opts roster ignore renown entries units full0 kv x hkv hx
    exact (prepareStratagemsUnits_sound d opts roster ignore renown entries units full0).2.2
      kv hkv x hx
  · intro unames uids s h1 h2
    unfold detachmentRejected
    rw [h1, h2]
    simp
  · intro b c
    cases b <;> cases c <;> exact ⟨by decide, by decide, by decide⟩

/-- C3 witness: a name placed in a concrete phase map comes from a work item
passing the detachment filter, and a concrete detachment-free rule passes it. -/
theorem C3_detachment_scoping_witness :
    (∃ e ∈ dsetDetachments.links, ∃ full,
      getStratagemFull dsetDetachments {} e.stratagem_id (some dsetDetachments.links)
        (some [dsIntercessor]) = some full ∧
      "GLADIUS RULE" = full.name ∧
      detachmentRejected (userDetachmentNames dsetDetachments [forceGladius])
        (userDetachmentIds dsetDetachments [forceGladius]) full = false) ∧
    detachmentRejected ["gladius task force"] ["GTF"] stratGeneric = false :=
  ⟨C3_detachment_scoping.1 dsetDetachments {} [forceGladius] [] none dsetDetachments.links
      [dsIntercessor] [] ("Command phase", ["GLADIUS RULE"]) "GLADIUS RULE"
      (by decide) (by decide),
   C3_detachment_scoping.2.2.1 ["gladius task force"] ["GTF"] stratGeneric
      (by decide) (by decide)⟩

/-- C10: the pipeline is idempotent over the mutable module state. A
successful run leaves the state `sF` behind (ignore list, current
army-of-renown, accumulated id list); running the pipeline again on the same
(dataset, roster, options) triple starting from `sF` - without a dataset
refresh, so the second run is the pure eligibility-plus-organisation pass -
returns the identical result and the identical final state: nothing of the
first run's state leaks into the second run's output, because
`_initialize_parsing` resets every piece of it. -/
theorem C10_idempotence (d : Dataset) (roster : List RosterForce)
    (opts : RequestOptions) (refreshDb : Bool) (s0 : ParseState)
    (r : PipelineResult) (sF : ParseState)
    (h : parseBattlescribe d roster opts refreshDb s0 = .ok (r, sF)) :
    parseBattlescribe d roster opts false sF = .ok (r, sF) := by
  unfold parseBattlescribe at h ⊢
  obtain ⟨renownData, sortedPhases, hr, hs, hR, hsF⟩ := parseAfterInit_ok_inv h
  have hstate : initializeParsing d opts false sF = initializeParsing d opts refreshDb s0 := by
    rw [hsF]
    simp [initializeParsing_eq]
  rw [hstate]
  exact h

/-- C10 witness: a concrete run on the detachment fixture, followed by a
second run from the state the first one left behind, reproducing the same
result and state. -/
theorem C10_idempotence_witness :
    parseBattlescribe dsetDetachments [forceGladius] {} false state0 =
      .ok (⟨[[("Command phase", ["GLADIUS RULE"]), ("Fight phase", ["GENERIC RULE"])]],
            [[("Intercessor Squad", ["GLADIUS RULE", "GENERIC RULE"])]], ["A1", "G1"]⟩,
           ⟨{}, [], [], none, ["A1", "G1"]⟩) ∧
    parseBattlescribe dsetDetachments [forceGladius] {} false
        ⟨{}, [], [], none, ["A1", "G1"]⟩ =
      .ok (⟨[[("Command phase", ["GLADIUS RULE"]), ("Fight phase", ["GENERIC RULE"])]],
            [[("Intercessor Squad", ["GLADIUS RULE", "GENERIC RULE"])]], ["A1", "G1"]⟩,
           ⟨{}, [], [], none, ["A1", "G1"]⟩) :=
  ⟨by decide,
   C10_idempotence dsetDetachments [forceGladius] {} false state0 _ _ (by decide)⟩

/-- C9: phase ordering and the unreachable error branch. Every per-force phase
mapping of a successful parse is sorted by canonical phase index
(`_sort_phases_by_game_order` over `GAME_PHASES`); a phase key absent from the
canonical list raises a `ValueError`; phase normalisation only emits canonical
phases; and under that invariant the error branch is unreachable: every phase
map the force-processing loop can produce has canonical keys only, so the sort
always succeeds on it. -/
theorem C9_phase_order :
    (∀ (d : Dataset) (roster : List RosterForce) (opts : RequestOptions)
       (refreshDb : Bool) (s0 : ParseState) (r : PipelineResult) (sF : ParseState),
      parseBattlescribe d roster opts refreshDb s0 = .ok (r, sF) →
      ∀ m ∈ r.phases, List.Pairwise (fun a b => phaseKeyIdx a.1 ≤ phaseKeyIdx b.1) m) ∧
    sortPhaseElem [("Not a phase", ["x"])] =
      .error "ValueError: phase not in phases list: Not a phase" ∧
    (∀ p x, x ∈ normalizePhases p → x ∈ GAME_PHASES) ∧
    (∀ (d : Dataset) (opts : RequestOptions) (roster : List RosterForce)
       (ignore : List String) (emptyData : List (List DSLink))
       (renownData : List (Option String)) (core : List DSLink)
       (unitSpecific : List (List DSLink)) (units : List (List Datasheet))
       (factions : List (Option Faction)) (renown : Option String) (full : List String),
      ∃ rs, sortPhasesByGameOrder
        (processForces d opts roster ignore emptyData renownData core unitSpecific units
          factions renown full).1 = .ok rs) := by
  refine ⟨?_, by decide, fun p x h => normalizePhases_mem_GAME_PHASES h, ?_⟩
  · intro d roster opts refreshDb s0 r sF h m hm
    unfold parseBattlescribe at h
    obtain ⟨renownData, sortedPhases, _, hs, hR, _⟩ := parseAfterInit_ok_inv h
    rw [hR] at hm
    obtain ⟨m0, _, hm0⟩ := sortPhasesByGameOrder_elems hs m hm
    exact sortPhaseElem_sorted hm0
  · intro d opts roster ignore emptyData renownData core unitSpecific units factions
      renown full
    exact sortPhasesByGameOrder_ok_of_keys
      (fun m hm => processForcesGo_phase_keys factions 0 renown full m hm)

/-- C9 witness: a concrete successful parse whose phase map is sorted, and a
concrete loop output on which the sort succeeds. -/
theorem C9_phase_order_witness :
    List.Pairwise (fun a b => phaseKeyIdx a.1 ≤ phaseKeyIdx b.1)
      [("Command phase", ["GLADIUS RULE"]), ("Fight phase", ["GENERIC RULE"])] ∧
    (∃ rs, sortPhasesByGameOrder
      (processForces dsetDetachments {} [forceGladius] [] [] [none] []
        [dsetDetachments.links] [[dsIntercessor]] [some smFaction] none []).1 = .ok rs) :=
  ⟨by
    have h := C9_phase_order.1 dsetDetachments [forceGladius] {} false state0
      ⟨[[("Command phase", ["GLADIUS RULE"]), ("Fight phase", ["GENERIC RULE"])]],
        [[("Intercessor Squad", ["GLADIUS RULE", "GENERIC RULE"])]], ["A1", "G1"]⟩
      ⟨{}, [], [], none, ["A1", "G1"]⟩ (by decide)
      [("Command phase", ["GLADIUS RULE"]), ("Fight phase", ["GENERIC RULE"])] (by decide)
    exact h,
   C9_phase_order.2.2.2 dsetDetachments {} [forceGladius] [] [] [none] []
     [dsetDetachments.links] [[dsIntercessor]] [some smFaction] none []⟩

/-- C4: the core-rules toggle. With `show_core` off, no id in a successful
parse result resolves to a stratagem whose type contains "core"
case-insensitively (given the data-model invariant that stratagem ids are
non-empty); the core section of the new architecture
(`_filter_relevant_stratagems`) never adds the rule named "NEW ORDERS"; and
with distinct stratagem names it adds every other valid core rule that the
earlier sections have not already added. -/
theorem C4_core_toggle :
    (∀ (d : Dataset) (roster : List RosterForce) (opts : RequestOptions)
       (refreshDb : Bool) (s0 : ParseState) (r : PipelineResult) (sF : ParseState),
      opts.show_core ≠ "on" → (∀ s ∈ d.stratagems, s.id ≠ "") →
      parseBattlescribe d roster opts refreshDb s0 = .ok (r, sF) →
      ∀ id ∈ r.fullIds, ∀ s, lookupStratagem d.stratagems id = some s →
        strContains (pyLower s.type) "core" = false) ∧
    (∀ (l : List Stratagem) (added : List String) (s : Stratagem),
      s ∈ coreStratagemAdditions l added → s.name ≠ "NEW ORDERS") ∧
    (∀ (l : List Stratagem) (added : List String) (s : Stratagem),
      (l.map (fun x => x.name)).Nodup → s ∈ l →
      (INVALID_STRATAGEM_TYPES.any (fun t => strContains s.type t)) = false →
      strContains (pyLower s.type) "core" = true →
      s.name ∉ added → s.name ≠ "NEW ORDERS" →
      s ∈ coreStratagemAdditions l added) := by
  refine ⟨?_, ?_, ?_⟩
  · intro d roster opts refreshDb s0 r sF hoff hids h id hid s hs
    unfold parseBattlescribe at h
    obtain ⟨renownData, sortedPhases, _, _, hR, _⟩ := parseAfterInit_ok_inv h
    rw [hR] at hid
    have hid2 := mem_sortIds.mp hid
    rw [initializeParsing_eq] at hid2
    unfold pipelineForces processForces at hid2
    dsimp only at hid2
    rcases processForcesGo_core_free hoff hids _ 0 _ _ id hid2 with h1 | h2
    · cases h1
    · exact h2 s hs
  · intro l
    induction l with
    | nil => intro added s h; cases h
    | cons a rest ih =>
      intro added s h
      unfold coreStratagemAdditions at h
      split at h
      · exact ih added s h
      · split at h
        · split at h
          · exact ih added s h
          · rename_i hno
            rcases List.mem_cons.mp h with h2 | h2
            · subst h2; exact hno
            · exact ih _ s h2
        · exact ih added s h
  · intro l
    induction l with
    | nil => intro added s _ hmem; cases hmem
    | cons a rest ih =>
      intro added s hnd hmem hinv hcore hadd hname
      have hndrest : (rest.map (fun x => x.name)).Nodup := (List.nodup_cons.mp hnd).2
      have hanotin : a.name ∉ rest.map (fun x => x.name) := (List.nodup_cons.mp hnd).1
      unfold coreStratagemAdditions
      rcases List.mem_cons.mp hmem with h2 | h2
      · subst h2
        rw [if_neg (by rw [hinv]; exact Bool.false_ne_true)]
        rw [if_pos (by rw [hcore]; simp [hadd])]
        rw [if_neg hname]
        exact List.mem_cons_self _ _
      · split
        · exact ih added s hndrest h2 hinv hcore hadd hname
        · split
          · split
            · exact ih added s hndrest h2 hinv hcore hadd hname
            · refine List.mem_cons_of_mem a (ih _ s hndrest h2 hinv hcore ?_ hname)
              intro hc
              rcases List.mem_cons.mp hc with hc2 | hc2
              · exact hanotin (hc2 ▸ List.mem_map_of_mem (fun x => x.name) h2)
              · exact hadd hc2
          · exact ih added s hndrest h2 hinv hcore hadd hname

/-- C4 witness: in a concrete core-off parse the accepted id "A1" resolves to
a non-core type, and in a concrete core list the "COMMAND RE-ROLL" core rule
is added while the application's hypotheses all hold. -/
theorem C4_core_toggle_witness :
    (∀ s, lookupStratagem dsetDetachments.stratagems "A1" = some s →
      strContains (pyLower s.type) "core" = false) ∧
    (⟨"C1", "COMMAND RE-ROLL", "Core Stratagem", "Any time", "", "", "", ""⟩ : Stratagem) ∈
      coreStratagemAdditions
        [⟨"N1", "NEW ORDERS", "Core Stratagem", "Any time", "", "", "", ""⟩,
         ⟨"C1", "COMMAND RE-ROLL", "Core Stratagem", "Any time", "", "", "", ""⟩] [] :=
  ⟨C4_core_toggle.1 dsetDetachments [forceGladius] {} false state0
      ⟨[[("Command phase", ["GLADIUS RULE"]), ("Fight phase", ["GENERIC RULE"])]],
        [[("Intercessor Squad", ["GLADIUS RULE", "GENERIC RULE"])]], ["A1", "G1"]⟩
      ⟨{}, [], [], none, ["A1", "G1"]⟩
      (by decide) (by decide) (by decide) "A1" (by decide),
   C4_core_toggle.2.2
      [⟨"N1", "NEW ORDERS", "Core Stratagem", "Any time", "", "", "", ""⟩,
       ⟨"C1", "COMMAND RE-ROLL", "Core Stratagem", "Any time", "", "", "", ""⟩] []
      ⟨"C1", "COMMAND RE-ROLL", "Core Stratagem", "Any time", "", "", "", ""⟩
      (by decide) (by decide) (by decide) (by decide) (by decide) (by decide)⟩

/-- A successful `findSome?` comes from some element of the list. -/
theorem findSome_mem {α β : Type} {l : List α} {f : α → Option β} {b : β}
    (h : l.findSome? f = some b) : ∃ a ∈ l, f a = some b := by
  induction l with
  | nil => cases h
  | cons x xs ih =>
    simp only [List.findSome?] at h
    cases hx : f x with
    | some y =>
      rw [hx] at h
      exact ⟨x, List.mem_cons_self x xs, hx.trans h⟩
    | none =>
      rw [hx] at h
      rcases ih h with ⟨a, ha, hfa⟩
      exact ⟨a, List.mem_cons_of_mem x ha, hfa⟩

/-- C6: the subfaction fallback of faction resolution. Whenever the direct
case-insensitive substring scan of the cleaned catalogue label misses and a
faction is nevertheless resolved, the force has a selections key and the
resolved faction substring-matches some candidate extracted from the
subfaction-type selections, mapped through the rename table; and concretely, a
force with catalogue name "Adeptus Astartes" carrying the subfaction
"Ultramarines" - which the rename table maps to "Space Marines" - resolves to
the "Space Marines" faction even though its catalogue label matches nothing
directly. -/
theorem C6_faction_fallback :
    (∀ (factions : List Faction) (force : RosterForce) (f : Faction),
      factions.find? (fun g =>
        strContains (pyLower (getFactionName force.catalogueName)) (pyLower g.name) ||
        strContains (pyLower g.name) (pyLower (getFactionName force.catalogueName))) = none →
      findFactionForce factions force = some f →
      f ∈ factions ∧ force.selections.isSome = true ∧
        ∃ n ∈ extractSubfactionNames force SUBFACTION_TYPES,
          matchFactionName f.name ((dictGet? SUBFACTION_RENAME_MAPPINGS n).getD n) = true) ∧
    [smFaction].find? (fun g =>
      strContains (pyLower (getFactionName forceAstartes.catalogueName)) (pyLower g.name) ||
      strContains (pyLower g.name)
        (pyLower (getFactionName forceAstartes.catalogueName))) = none ∧
    dictGet? SUBFACTION_RENAME_MAPPINGS "Ultramarines" = some "Space Marines" ∧
    findFactionForce [smFaction] forceAstartes = some smFaction := by
  refine ⟨?_, by decide, by decide, by decide⟩
  intro factions force f hmiss hfind
  unfold findFactionForce at hfind
  simp only [hmiss] at hfind
  cases hsel : force.selections.isSome with
  | false => rw [hsel] at hfind; cases hfind
  | true =>
    rw [hsel] at hfind
    rw [if_pos rfl] at hfind
    rcases findSome_mem hfind with ⟨n, hn, heq⟩
    refine ⟨List.mem_of_find?_eq_some heq, rfl, n, hn, ?_⟩
    have h3 := List.find?_some heq
    simpa using h3

/-- C6 witness: the fallback characterisation applied to the concrete
Adeptus-Astartes force. -/
theorem C6_faction_fallback_witness :
    smFaction ∈ [smFaction] ∧ forceAstartes.selections.isSome = true ∧
      ∃ n ∈ extractSubfactionNames forceAstartes SUBFACTION_TYPES,
        matchFactionName smFaction.name
          ((dictGet? SUBFACTION_RENAME_MAPPINGS n).getD n) = true :=
  C6_faction_fallback.1 [smFaction] forceAstartes smFaction (by decide) (by decide)
